import Mathlib

/-!
Verification development for the spreadsheet application's formula engine.

The definitions below are a shallow embedding of the JavaScript source:

* `src/utils/FormulaParser.js` (the enhanced revision of the parser, the one
  with circular-reference detection) — `evaluate`, `replaceCellReferences`,
  `evaluateExpression`, the function library (`evaluateAverage`, `evaluateIf`,
  `evaluateAnd`, `evaluateOr`, ...), `parseCellRange`, `generateCellRange`,
  `generateLimitedRange`, `columnLetterToIndex`, `indexToColumnLetter`,
  `getNumericCellValue`, `parseArguments`, `invalidateCellDependencies`;
* `src/utils/cellHelpers.js` — `getColumnId`, `getColumnIndex`, `getCellId`,
  `getCellIndices`;
* `src/hooks/useSpreadsheetOperations.js` — `updateCellValue`,
  `recalculateDependentCells`;
* `src/context/SpreadsheetContext.js` — the `getCellValue` / `getCellData`
  collaborator capabilities.

JavaScript numbers are IEEE doubles; every numeric value appearing in the
developments below is a small integer (or a ratio of small integers), on which
double arithmetic is exact, so numbers are modelled as `ℚ` extended with the
IEEE specials `Infinity`, `-Infinity` and `NaN`.  Host-language facilities the
source leans on (`parseFloat`, `Number`, `String`, string/array methods, the
regexes it uses, and the `mathjs` arithmetic evaluator) are modelled on the
fragment the source exercises; each such model carries a comment saying so.

Recursion through the cell graph (`evaluate` ↔ `replaceCellReferences`, and
`recalculateDependentCells`) is unbounded in the source; it is embedded with an
explicit fuel parameter, `none` meaning the computation did not finish within
the given recursion budget.
-/

namespace SpreadsheetApp

/-- `A`–`Z`, the character class `[A-Z]` of the source's regexes. -/
def isUpperAZ (c : Char) : Bool := 'A' ≤ c && c ≤ 'Z'

/-- `0`–`9`, the character class `[0-9]`. -/
def isDigit09 (c : Char) : Bool := '0' ≤ c && c ≤ '9'

/-- The character class `[A-Za-z0-9]` of the reference-substitution lookahead. -/
def isAlnumJS (c : Char) : Bool := isUpperAZ c || ('a' ≤ c && c ≤ 'z') || isDigit09 c

/-- Whitespace as trimmed by JavaScript's `String.prototype.trim` (modelled on
the ASCII whitespace actually occurring in formulas). -/
def isWsJS (c : Char) : Bool := c = ' ' || c = '\t' || c = '\n' || c = '\r'

/-- `trim` on a character list: drop leading and trailing whitespace. -/
def trimChars (l : List Char) : List Char :=
  ((l.dropWhile isWsJS).reverse.dropWhile isWsJS).reverse

/-- JavaScript `String.prototype.trim`. -/
def trimS (s : String) : String := String.mk (trimChars s.data)

/-- `String.prototype.startsWith` (list-based, so that proofs can reason
about it). -/
def strStartsWith (s pre : String) : Bool := pre.data.isPrefixOf s.data

/-- `String.prototype.endsWith`. -/
def strEndsWith (s suf : String) : Bool := suf.data.isSuffixOf s.data

/-- Split a character list on a separator character (the behaviour of
`String.prototype.split` with a single-character separator). -/
def splitOnCharGo (sep : Char) : List Char → List Char → List String
  | [], cur => [String.mk cur.reverse]
  | c :: rest, cur =>
    if c = sep then String.mk cur.reverse :: splitOnCharGo sep rest []
    else splitOnCharGo sep rest (c :: cur)

/-- `s.split(sep)` for a one-character separator. -/
def splitOnCharS (sep : Char) (s : String) : List String :=
  splitOnCharGo sep s.data []

/-- `Array.prototype.join` with a fixed separator string. -/
def joinSep (sep : String) : List String → String
  | [] => ""
  | [x] => x
  | x :: rest => x ++ sep ++ joinSep sep rest

/-- `Set.prototype.add`: JavaScript sets are insertion-ordered and ignore
duplicates; modelled as a duplicate-free list. -/
def setAdd (l : List String) (x : String) : List String :=
  if x ∈ l then l else l ++ [x]

/-- `Set.prototype.delete`. -/
def setDelete (l : List String) (x : String) : List String :=
  l.filter (fun y => y ≠ x)

/-- The ASCII digit character for `n < 10` (JavaScript number formatting). -/
def digitChar (n : ℕ) : Char := Char.ofNat (48 + n)

/-- Decimal digits of a natural number, most significant first; the first
argument is recursion fuel (adequate whenever `fuel ≥ n + 1`). -/
def natReprAux : ℕ → ℕ → List Char
  | 0, _ => []
  | fuel + 1, n =>
    if n < 10 then [digitChar n]
    else natReprAux fuel (n / 10) ++ [digitChar (n % 10)]

/-- JavaScript `String(n)` for a natural number. -/
def natReprJS (n : ℕ) : String := String.mk (natReprAux (n + 1) n)

/-- JavaScript `String(n)` for an integer. -/
def intReprJS (n : ℤ) : String :=
  if n < 0 then "-" ++ natReprJS n.natAbs else natReprJS n.toNat

/-- Numeric value of a digit character. -/
def digitVal (c : Char) : ℕ := c.toNat - 48

/-- Value of a list of decimal digit characters, as read by `parseInt` on an
all-digit string. -/
def parseNatDigits (l : List Char) : ℕ :=
  l.foldl (fun acc c => 10 * acc + digitVal c) 0

/-- Parse an unsigned decimal literal `digits [ "." digits ]` from the front of
a character list, returning its rational value and the rest.  This is the
common core of the models of `parseFloat`, `Number` and the `mathjs` number
token (none of the formulas in scope use exponents, hex or `Infinity`
literals). -/
def parseDecimal (l : List Char) : Option (ℚ × List Char) :=
  let intPart := l.takeWhile isDigit09
  let rest := l.drop intPart.length
  match rest with
  | '.' :: rest' =>
    let fracPart := rest'.takeWhile isDigit09
    if intPart = [] && fracPart = [] then none
    else
      some ((parseNatDigits intPart : ℚ) +
        (parseNatDigits fracPart : ℚ) / ((10 : ℚ) ^ fracPart.length),
        rest'.drop fracPart.length)
  | _ =>
    if intPart = [] then none
    else some ((parseNatDigits intPart : ℚ), rest)

/-- JavaScript `parseFloat` on a string: skip leading whitespace, optional
sign, then the longest decimal prefix; `none` is `NaN`. -/
def jsParseFloat (s : String) : Option ℚ :=
  let l := s.data.dropWhile isWsJS
  match l with
  | '-' :: rest => (parseDecimal rest).map (fun p => (-p.1, p.2)) |>.map Prod.fst
  | '+' :: rest => (parseDecimal rest).map Prod.fst
  | _ => (parseDecimal l).map Prod.fst

/-- The JavaScript numbers the engine can produce: exactly-representable
finite values plus the IEEE specials. -/
inductive JSNum where
  | fin (q : ℚ)
  | posInf
  | negInf
  | nan
deriving DecidableEq, Repr

/-- JavaScript `Number(s)` (the coercion used by the global `isNaN`): trim,
empty string is `0`, otherwise the whole string must be a signed decimal
literal, else `NaN`. -/
def jsNumber (s : String) : JSNum :=
  let l := trimChars s.data
  if l = [] then .fin 0
  else
    let core := fun (l' : List Char) (sign : ℚ) =>
      match parseDecimal l' with
      | some (q, []) => JSNum.fin (sign * q)
      | _ => JSNum.nan
    match l with
    | '-' :: rest => core rest (-1)
    | '+' :: rest => core rest 1
    | _ => core l 1

/-- IEEE addition on the modelled numbers. -/
def JSNum.add : JSNum → JSNum → JSNum
  | .fin a, .fin b => .fin (a + b)
  | .nan, _ => .nan
  | _, .nan => .nan
  | .posInf, .negInf => .nan
  | .negInf, .posInf => .nan
  | .posInf, _ => .posInf
  | _, .posInf => .posInf
  | .negInf, _ => .negInf
  | _, .negInf => .negInf

/-- IEEE subtraction. -/
def JSNum.sub : JSNum → JSNum → JSNum
  | .fin a, .fin b => .fin (a - b)
  | .nan, _ => .nan
  | _, .nan => .nan
  | .posInf, .posInf => .nan
  | .negInf, .negInf => .nan
  | .posInf, _ => .posInf
  | .negInf, _ => .negInf
  | .fin _, .posInf => .negInf
  | .fin _, .negInf => .posInf

/-- IEEE multiplication (signed zeros are not modelled; no development below
depends on them). -/
def JSNum.mul : JSNum → JSNum → JSNum
  | .fin a, .fin b => .fin (a * b)
  | .nan, _ => .nan
  | _, .nan => .nan
  | .posInf, .posInf => .posInf
  | .negInf, .negInf => .posInf
  | .posInf, .negInf => .negInf
  | .negInf, .posInf => .negInf
  | .posInf, .fin b => if b > 0 then .posInf else if b < 0 then .negInf else .nan
  | .fin a, .posInf => if a > 0 then .posInf else if a < 0 then .negInf else .nan
  | .negInf, .fin b => if b > 0 then .negInf else if b < 0 then .posInf else .nan
  | .fin a, .negInf => if a > 0 then .negInf else if a < 0 then .posInf else .nan

/-- IEEE division: this is what JavaScript (and hence `mathjs` on plain
numbers) computes for `a / b`; in particular a nonzero finite value divided by
zero is a signed infinity, and `0 / 0` is `NaN`. -/
def JSNum.div : JSNum → JSNum → JSNum
  | .fin a, .fin b =>
    if b ≠ 0 then .fin (a / b)
    else if a > 0 then .posInf else if a < 0 then .negInf else .nan
  | .nan, _ => .nan
  | _, .nan => .nan
  | .posInf, .posInf => .nan
  | .posInf, .negInf => .nan
  | .negInf, .posInf => .nan
  | .negInf, .negInf => .nan
  | .posInf, .fin b => if b < 0 then .negInf else .posInf
  | .negInf, .fin b => if b < 0 then .posInf else .negInf
  | .fin _, .posInf => .fin 0
  | .fin _, .negInf => .fin 0

/-- The dynamic values the engine passes around: numbers, strings and
booleans. -/
inductive JSVal where
  | num (x : JSNum)
  | str (s : String)
  | boolv (b : Bool)
deriving DecidableEq, Repr

/-- JavaScript `String(x)` for the values substituted into expressions.  It is
exercised below only on integral finite numbers, the specials and booleans; a
non-integral finite value is rendered as `num/den` (JavaScript would print a
decimal expansion) and no theorem relies on that case. -/
def numToString (x : JSNum) : String :=
  match x with
  | .fin q => if q.den = 1 then intReprJS q.num
              else intReprJS q.num ++ "/" ++ natReprJS q.den
  | .posInf => "Infinity"
  | .negInf => "-Infinity"
  | .nan => "NaN"

/-- JavaScript `String(v)`. -/
def valToString (v : JSVal) : String :=
  match v with
  | .num x => numToString x
  | .str s => s
  | .boolv b => if b then "true" else "false"

/-- The global `isNaN(v)` (which coerces through `Number`). -/
def jsIsNaN (v : JSVal) : Bool :=
  match v with
  | .num x => x = .nan
  | .str s => jsNumber s = .nan
  | .boolv _ => false

/-- JavaScript truthiness `Boolean(v)` (again, `-0` is not modelled). -/
def jsTruthy (v : JSVal) : Bool :=
  match v with
  | .num x => x ≠ .fin 0 && x ≠ .nan
  | .str s => s ≠ ""
  | .boolv b => b

/-- `parseFloat(v)` as used by `getNumericCellValue`: a number is stringified
first (`parseFloat(7) = 7`, `parseFloat(Infinity) = Infinity`); `none` is
`NaN`. -/
def jsParseFloatVal (v : JSVal) : Option JSNum :=
  match v with
  | .num (.fin q) => some (.fin q)
  | .num .posInf => some .posInf
  | .num .negInf => some .negInf
  | .num .nan => none
  | .str s => (jsParseFloat s).map .fin
  | .boolv _ => none

/-! ### `src/utils/cellHelpers.js` -/

/-- Core of the column-label loop
`while (temp > 0) { id = chr(65 + (temp-1) % 26) + id; temp = (temp-1) / 26 }`:
bijective base-26 digits of `t`, most significant first.  The first argument is
recursion fuel (adequate whenever `fuel ≥ t`). -/
def colIdAux : ℕ → ℕ → List Char
  | 0, _ => []
  | _, 0 => []
  | fuel + 1, t + 1 => colIdAux fuel (t / 26) ++ [Char.ofNat (65 + t % 26)]

/-- `getColumnId(index)`: zero-based column index to alphabetic label (the JS
loop runs on `temp = index + 1`; for `index + 1 ≤ 0` the loop body never runs
and the result is the empty string). -/
def getColumnId (index : ℤ) : String :=
  String.mk (colIdAux (index + 1).toNat (index + 1).toNat)

/-- `getColumnIndex(id)`: fold `index = index * 26 + (charCode - 64)` over the
label, minus one (zero-based). -/
def getColumnIndex (id : String) : ℤ :=
  (id.data.foldl (fun acc c => acc * 26 + ((c.toNat : ℤ) - 64)) 0) - 1

/-- `getCellId(colIndex, rowIndex)`. -/
def getCellId (colIndex rowIndex : ℤ) : String :=
  getColumnId colIndex ++ intReprJS (rowIndex + 1)

/-- Digits matched by the trailing-anchored regex `(\d+)$`. -/
def trailingDigits (l : List Char) : List Char :=
  (l.reverse.takeWhile isDigit09).reverse

/-- `getCellIndices(cellId)`: the leading `^([A-Z]+)` match and the trailing
`(\d+)$` match; if either regex fails to match, the JS code throws
(`match(...)` is `null`), modelled as `none`. -/
def getCellIndices (cellId : String) : Option (ℤ × ℤ) :=
  let letters := cellId.data.takeWhile isUpperAZ
  let digits := trailingDigits cellId.data
  if letters = [] || digits = [] then none
  else some (getColumnIndex (String.mk letters), (parseNatDigits digits : ℤ) - 1)

/-! ### `FormulaParser` reference and range utilities -/

/-- `isValidCellReference(cellRef)`: `/^[A-Z]+[0-9]+$/.test(cellRef.trim())`. -/
def isValidCellReference (cellRef : String) : Bool :=
  let t := trimChars cellRef.data
  let letters := t.takeWhile isUpperAZ
  let rest := t.drop letters.length
  letters ≠ [] && rest ≠ [] && rest.all isDigit09

/-- `columnLetterToIndex(letter)`: one-based fold
`index = index * 26 + (charCode - 64)`; a character outside `A`–`Z` throws and
the `catch` returns `1`. -/
def columnLetterToIndex (letter : String) : ℕ :=
  if letter.data.all isUpperAZ then
    letter.data.foldl (fun acc c => acc * 26 + (c.toNat - 64)) 0
  else 1

/-- `indexToColumnLetter(index)`: same loop as `getColumnId` but on the
one-based index directly (guard: `index < 1` gives `"A"`). -/
def indexToColumnLetter (index : ℕ) : String :=
  if index < 1 then "A" else String.mk (colIdAux index index)

/-- `generateCellRange(startCol, startRow, endCol, endRow)`: min/max-normalise
the corners, then the row-major double loop
`for (row = minRow..maxRow) for (col = minCol..maxCol) push(letter(col)+row)`. -/
def generateCellRange (startCol startRow endCol endRow : ℕ) : List String :=
  let minCol := min startCol endCol
  let maxCol := max startCol endCol
  let minRow := min startRow endRow
  let maxRow := max startRow endRow
  (List.range (maxRow + 1 - minRow)).flatMap (fun i =>
    (List.range (maxCol + 1 - minCol)).map (fun j =>
      indexToColumnLetter (minCol + j) ++ natReprJS (minRow + i)))

/-- `generateLimitedRange(...)`: the same double loop with a shared counter
`count` and guard `count < maxCells` on both loops.  The inner guard alone
determines the result (once the counter reaches the cap every later iteration
of either loop pushes nothing), so the outer loop's `count < maxCells` test is
not repeated here. -/
def generateLimitedRange (startCol startRow endCol endRow maxCells : ℕ) :
    List String :=
  let minCol := min startCol endCol
  let maxCol := max startCol endCol
  let minRow := min startRow endRow
  let maxRow := max startRow endRow
  (List.range (maxRow + 1 - minRow)).foldl (fun acc i =>
    (List.range (maxCol + 1 - minCol)).foldl (fun acc2 j =>
      if acc2.length < maxCells then
        acc2 ++ [indexToColumnLetter (minCol + j) ++ natReprJS (minRow + i)]
      else acc2) acc) []

/-- The first match of the unanchored regex `([A-Z]+)([0-9]+)` against a cell
reference that has already passed `isValidCellReference` (so the whole string
is letters followed by digits): the letter and digit groups. -/
def cellRefGroups (s : String) : Option (List Char × List Char) :=
  let letters := s.data.takeWhile isUpperAZ
  let digits := (s.data.drop letters.length).takeWhile isDigit09
  if letters = [] || digits = [] then none else some (letters, digits)

/-- `parseCellRange(range)` of the enhanced parser: split on `:`; a single
well-formed reference stands for itself, otherwise both endpoints must be
well-formed; row numbers must be positive; rectangles over 1000 cells are
routed to `generateLimitedRange`. -/
def parseCellRange (range : String) : List String :=
  match splitOnCharS ':' range with
  | [p0, p1] =>
    let startCell := trimS p0
    let endCell := trimS p1
    if !(isValidCellReference startCell) || !(isValidCellReference endCell) then []
    else
      match cellRefGroups startCell, cellRefGroups endCell with
      | some (sl, sd), some (el, ed) =>
        let startCol := columnLetterToIndex (String.mk sl)
        let startRow := parseNatDigits sd
        let endCol := columnLetterToIndex (String.mk el)
        let endRow := parseNatDigits ed
        if startRow = 0 || endRow = 0 then []
        else
          let rangeSize := (max endRow startRow - min endRow startRow + 1) *
            (max endCol startCol - min endCol startCol + 1)
          if rangeSize > 1000 then
            generateLimitedRange startCol startRow endCol endRow 1000
          else generateCellRange startCol startRow endCol endRow
      | _, _ => []
  | _ => if isValidCellReference range then [range] else []

/-! ### Model of the `mathjs` arithmetic evaluator

The source hands anything that is not a recognised function call to
`math.evaluate`.  The model below covers the fragment those expressions use:
decimal number literals, double-quoted string literals, unary minus,
parenthesisation and the binary operators `+ - * /` with IEEE number
semantics (so `5/0` is `Infinity`, exactly as `mathjs` computes on plain
JavaScript numbers).  `mathjs` converts numeric strings to numbers inside
arithmetic and throws on anything else; a parse or type failure is `none`
(which the caller's `catch` turns into `#ERROR!`). -/

/-- Body of a double-quoted `mathjs` string literal (after the opening quote):
content and the remainder past the closing quote; a backslash escapes the
following character. -/
def parseStrTok : List Char → Option (List Char × List Char)
  | [] => none
  | '"' :: rest => some ([], rest)
  | '\\' :: c :: rest => (parseStrTok rest).map (fun p => (c :: p.1, p.2))
  | c :: rest => (parseStrTok rest).map (fun p => (c :: p.1, p.2))

/-- `mathjs` implicit conversion of an operand to a number (`none` throws). -/
def mathToNum : JSVal → Option JSNum
  | .num x => some x
  | .str s => match jsNumber s with | .nan => none | x => some x
  | .boolv b => some (.fin (if b then 1 else 0))

/-- Apply a binary numeric operator after `mathjs` operand conversion. -/
def mathBin (op : JSNum → JSNum → JSNum) (a b : JSVal) : Option JSVal :=
  match mathToNum a, mathToNum b with
  | some x, some y => some (.num (op x y))
  | _, _ => none

/-- Primary expressions: parenthesised expression (via the callback to the
full parser), string literal, unary minus/plus, number literal. -/
def parsePrimaryW (expCb : List Char → Option (JSVal × List Char)) :
    ℕ → List Char → Option (JSVal × List Char)
  | 0, _ => none
  | fuel + 1, l =>
    match l.dropWhile isWsJS with
    | '(' :: rest =>
      match expCb rest with
      | some (v, rest') =>
        match rest'.dropWhile isWsJS with
        | ')' :: rest'' => some (v, rest'')
        | _ => none
      | none => none
    | '"' :: rest => (parseStrTok rest).map (fun p => (.str (String.mk p.1), p.2))
    | '-' :: rest =>
      (parsePrimaryW expCb fuel rest).bind (fun p =>
        (mathBin JSNum.sub (.num (.fin 0)) p.1).map (fun v => (v, p.2)))
    | '+' :: rest => parsePrimaryW expCb fuel rest
    | l' => (parseDecimal l').map (fun p => ((.num (.fin p.1) : JSVal), p.2))

/-- Left-associated chain of `*` and `/` after an initial operand. -/
def parseMulRestW (expCb : List Char → Option (JSVal × List Char)) :
    ℕ → JSVal → List Char → Option (JSVal × List Char)
  | 0, _, _ => none
  | fuel + 1, acc, l =>
    match l.dropWhile isWsJS with
    | '*' :: rest =>
      match parsePrimaryW expCb fuel rest with
      | some (v, rest') =>
        match mathBin JSNum.mul acc v with
        | some r => parseMulRestW expCb fuel r rest'
        | none => none
      | none => none
    | '/' :: rest =>
      match parsePrimaryW expCb fuel rest with
      | some (v, rest') =>
        match mathBin JSNum.div acc v with
        | some r => parseMulRestW expCb fuel r rest'
        | none => none
      | none => none
    | _ => some (acc, l)

/-- Multiplicative level. -/
def parseMulLvlW (expCb : List Char → Option (JSVal × List Char)) (fuel : ℕ)
    (l : List Char) : Option (JSVal × List Char) :=
  match parsePrimaryW expCb fuel l with
  | some (v, rest) => parseMulRestW expCb fuel v rest
  | none => none

/-- Left-associated chain of `+` and `-` after an initial operand. -/
def parseAddRestW (expCb : List Char → Option (JSVal × List Char)) :
    ℕ → JSVal → List Char → Option (JSVal × List Char)
  | 0, _, _ => none
  | fuel + 1, acc, l =>
    match l.dropWhile isWsJS with
    | '+' :: rest =>
      match parseMulLvlW expCb fuel rest with
      | some (v, rest') =>
        match mathBin JSNum.add acc v with
        | some r => parseAddRestW expCb fuel r rest'
        | none => none
      | none => none
    | '-' :: rest =>
      match parseMulLvlW expCb fuel rest with
      | some (v, rest') =>
        match mathBin JSNum.sub acc v with
        | some r => parseAddRestW expCb fuel r rest'
        | none => none
      | none => none
    | _ => some (acc, l)

/-- Additive level. -/
def parseAddLvlW (expCb : List Char → Option (JSVal × List Char)) (fuel : ℕ)
    (l : List Char) : Option (JSVal × List Char) :=
  match parseMulLvlW expCb fuel l with
  | some (v, rest) => parseAddRestW expCb fuel v rest
  | none => none

/-- Full expression parser; the fuel bounds parenthesis nesting and operator
chain length and is instantiated with the input length, which always
suffices. -/
def mathParse : ℕ → List Char → Option (JSVal × List Char)
  | 0, _ => none
  | fuel + 1, l => parseAddLvlW (mathParse fuel) fuel l

/-- `math.evaluate(expression)`: `none` models a thrown evaluation error. -/
def mathEvaluate (s : String) : Option JSVal :=
  match mathParse (s.length + 1) s.data with
  | some (v, rest) => if rest.dropWhile isWsJS = [] then some v else none
  | none => none

/-! ### `FormulaParser` argument splitting -/

/-- Loop of `parseArguments`: split on commas that are not inside a
double-quoted span; every comma pushes the trimmed current argument, the final
fragment is pushed only when its trim is non-empty. -/
def parseArgumentsGo : List Char → Bool → List Char → List String → List String
  | [], _, cur, acc =>
    if trimChars cur = [] then acc else acc ++ [String.mk (trimChars cur)]
  | c :: rest, insideQuotes, cur, acc =>
    if c = '"' then parseArgumentsGo rest (!insideQuotes) (cur ++ [c]) acc
    else if c = ',' && !insideQuotes then
      parseArgumentsGo rest insideQuotes [] (acc ++ [String.mk (trimChars cur)])
    else parseArgumentsGo rest insideQuotes (cur ++ [c]) acc

/-- `parseArguments(argsString)` (the guard `if (!argsString) return []`
covers the empty string). -/
def parseArguments (argsString : String) : List String :=
  if argsString = "" then [] else parseArgumentsGo argsString.data false [] []

/-- The capture group of the greedy regex `/NAME\((.*)\)/i` as used by every
function evaluator: at the call sites the (upper-cased) expression is known to
start with `NAME(`, so the match starts at position 0 and the greedy group
extends to the last `)` of the string; no `)` at all means no match
(`none`). -/
def extractArgsString (fname expr : String) : Option String :=
  if strStartsWith (String.mk (expr.data.map Char.toUpper)) (fname ++ "(") then
    let body := expr.data.drop (fname.length + 1)
    let tail := (body.reverse.takeWhile (fun c => c ≠ ')')).reverse
    if body.length = tail.length then none
    else some (String.mk (body.take (body.length - tail.length - 1)))
  else none

/-! ### Parser state -/

/-- The `getCellValue` capability handed to the `FormulaParser` constructor:
the raw value of a cell as the collaborator reports it. -/
abbrev Sheet : Type := String → JSVal

/-- One entry of the module-level `evaluationCache`:
`{ value, dependencies }`. -/
structure CacheEntry where
  value : JSVal
  deps : List String
deriving DecidableEq, Repr

/-- The mutable state of a `FormulaParser` instance together with the
module-level cache.  `substRuns` and `valueReads` are instrumentation (the
"side-effecting test double"): how many times reference substitution has run
and how many times `getCellValue` has been invoked; no source behaviour
depends on them. -/
structure PState where
  cellsUsed : List String
  processingStack : List String
  circularReferences : List String
  cache : List (String × CacheEntry)
  cacheHits : ℕ
  cacheMisses : ℕ
  substRuns : ℕ
  valueReads : ℕ
deriving DecidableEq, Repr

/-- A freshly constructed parser with an empty cache. -/
def initPState : PState := ⟨[], [], [], [], 0, 0, 0, 0⟩

/-- `evaluationCache.has / .get`. -/
def cacheLookup (cache : List (String × CacheEntry)) (k : String) :
    Option CacheEntry :=
  (cache.find? (fun kv => kv.1 = k)).map Prod.snd

/-- `evaluationCache.set`: JavaScript `Map.set` keeps the position of an
existing key and appends a new one. -/
def cacheSet (cache : List (String × CacheEntry)) (k : String) (e : CacheEntry) :
    List (String × CacheEntry) :=
  if (cache.find? (fun kv => kv.1 = k)).isSome then
    cache.map (fun kv => if kv.1 = k then (k, e) else kv)
  else cache ++ [(k, e)]

/-- `invalidateCellDependencies(cellIds)`: delete every cache entry whose
dependency set contains one of the given cells (the inner loop's `break`
makes the condition an existential). -/
def invalidateCellDependencies (cache : List (String × CacheEntry))
    (cellIds : List String) : List (String × CacheEntry) :=
  cache.filter (fun kv => ¬ cellIds.any (fun cid => cid ∈ kv.2.deps))

/-- `getCellsUsed()`. -/
def getCellsUsed (st : PState) : List String := st.cellsUsed

/-- One invocation of the `getCellValue` capability (counted by the
instrumentation). -/
def readCell (sheet : Sheet) (cellId : String) (st : PState) : JSVal × PState :=
  (sheet cellId, { st with valueReads := st.valueReads + 1 })

/-- `getNumericCellValue(cellId)`: record the dependency, read the cell,
`parseFloat` it, `NaN` becomes `0`. -/
def getNumericCellValue (sheet : Sheet) (cellId : String) (st : PState) :
    JSNum × PState :=
  let st := { st with cellsUsed := setAdd st.cellsUsed cellId }
  let (value, st) := readCell sheet cellId st
  match jsParseFloatVal value with
  | some x => (x, st)
  | none => (.fin 0, st)

/-! ### Function library (the branches the claims exercise) -/

/-- Inner loop of `evaluateAverage` over the cells of a range (the single-cell
branch of the source runs the identical code on one cell): accumulate the
numeric value and bump the divisor count exactly when
`value !== 0 || getCellValue(cell) !== ''` (note the short-circuit: the second
read only happens when the numeric value is `0`). -/
def evaluateAverageCells (sheet : Sheet) :
    List String → PState → JSNum → ℕ → PState × JSNum × ℕ
  | [], st, sum, count => (st, sum, count)
  | cell :: rest, st, sum, count =>
    let (value, st) := getNumericCellValue sheet cell st
    if value ≠ .fin 0 then
      evaluateAverageCells sheet rest st (sum.add value) (count + 1)
    else
      let (raw, st) := readCell sheet cell st
      if raw ≠ .str "" then
        evaluateAverageCells sheet rest st (sum.add value) (count + 1)
      else evaluateAverageCells sheet rest st sum count

/-- Argument loop of `evaluateAverage`: a `:`-containing argument is expanded
through `parseCellRange`, a well-formed reference is treated as a one-cell
range, anything else is a direct value counted when `parseFloat` succeeds. -/
def evaluateAverageArgs (sheet : Sheet) :
    List String → PState → JSNum → ℕ → PState × JSNum × ℕ
  | [], st, sum, count => (st, sum, count)
  | arg :: rest, st, sum, count =>
    if arg.data.contains ':' then
      let (st, sum, count) :=
        evaluateAverageCells sheet (parseCellRange arg) st sum count
      evaluateAverageArgs sheet rest st sum count
    else if isValidCellReference arg then
      let (st, sum, count) := evaluateAverageCells sheet [arg] st sum count
      evaluateAverageArgs sheet rest st sum count
    else
      match jsParseFloat arg with
      | some v => evaluateAverageArgs sheet rest st (sum.add (.fin v)) (count + 1)
      | none => evaluateAverageArgs sheet rest st sum count

/-- `evaluateAverage(expression)`. -/
def evaluateAverage (sheet : Sheet) (expr : String) (st : PState) :
    JSVal × PState :=
  match extractArgsString "AVERAGE" expr with
  | none => (.str "#ERROR!", st)
  | some inner =>
    if inner = "" then (.str "#ERROR!", st)
    else
      let args := parseArguments inner
      let (st, sum, count) := evaluateAverageArgs sheet args st (.fin 0) 0
      if count = 0 then (.str "#DIV/0!", st)
      else (.num (sum.div (.fin count)), st)

/-- Inner loop of `evaluateSum` over range cells. -/
def evaluateSumCells (sheet : Sheet) :
    List String → PState → JSNum → PState × JSNum
  | [], st, sum => (st, sum)
  | cell :: rest, st, sum =>
    let (value, st) := getNumericCellValue sheet cell st
    evaluateSumCells sheet rest st (sum.add value)

/-- Argument loop of `evaluateSum`. -/
def evaluateSumArgs (sheet : Sheet) :
    List String → PState → JSNum → PState × JSNum
  | [], st, sum => (st, sum)
  | arg :: rest, st, sum =>
    if arg.data.contains ':' then
      let (st, sum) := evaluateSumCells sheet (parseCellRange arg) st sum
      evaluateSumArgs sheet rest st sum
    else if isValidCellReference arg then
      let (st, sum) := evaluateSumCells sheet [arg] st sum
      evaluateSumArgs sheet rest st sum
    else
      match jsParseFloat arg with
      | some v => evaluateSumArgs sheet rest st (sum.add (.fin v))
      | none => evaluateSumArgs sheet rest st sum

/-- `evaluateSum(expression)` (a failed or empty argument match returns the
number `0`). -/
def evaluateSum (sheet : Sheet) (expr : String) (st : PState) : JSVal × PState :=
  match extractArgsString "SUM" expr with
  | none => (.num (.fin 0), st)
  | some inner =>
    if inner = "" then (.num (.fin 0), st)
    else
      let (st, sum) := evaluateSumArgs sheet (parseArguments inner) st (.fin 0)
      (.num sum, st)

/-- `Math.min` on the modelled numbers. -/
def JSNum.jsMin : JSNum → JSNum → JSNum
  | .nan, _ => .nan
  | _, .nan => .nan
  | .negInf, _ => .negInf
  | _, .negInf => .negInf
  | .posInf, b => b
  | a, .posInf => a
  | .fin a, .fin b => .fin (min a b)

/-- `Math.max` on the modelled numbers. -/
def JSNum.jsMax : JSNum → JSNum → JSNum
  | .nan, _ => .nan
  | _, .nan => .nan
  | .posInf, _ => .posInf
  | _, .posInf => .posInf
  | .negInf, b => b
  | a, .negInf => a
  | .fin a, .fin b => .fin (max a b)

/-- Inner loop shared by `evaluateMin`/`evaluateMax` over range cells: record
the dependency, `parseFloat` the raw value, fold non-`NaN` values with the
given combiner and set the `found` flag. -/
def minMaxCells (comb : JSNum → JSNum → JSNum) (sheet : Sheet) :
    List String → PState → JSNum → Bool → PState × JSNum × Bool
  | [], st, acc, found => (st, acc, found)
  | cell :: rest, st, acc, found =>
    let st := { st with cellsUsed := setAdd st.cellsUsed cell }
    let (raw, st) := readCell sheet cell st
    match jsParseFloatVal raw with
    | some v => minMaxCells comb sheet rest st (comb acc v) true
    | none => minMaxCells comb sheet rest st acc found

/-- Argument loop shared by `evaluateMin`/`evaluateMax`. -/
def minMaxArgs (comb : JSNum → JSNum → JSNum) (sheet : Sheet) :
    List String → PState → JSNum → Bool → PState × JSNum × Bool
  | [], st, acc, found => (st, acc, found)
  | arg :: rest, st, acc, found =>
    if arg.data.contains ':' then
      let (st, acc, found) := minMaxCells comb sheet (parseCellRange arg) st acc found
      minMaxArgs comb sheet rest st acc found
    else if isValidCellReference arg then
      let (st, acc, found) := minMaxCells comb sheet [arg] st acc found
      minMaxArgs comb sheet rest st acc found
    else
      match jsParseFloat arg with
      | some v => minMaxArgs comb sheet rest st (comb acc (.fin v)) true
      | none => minMaxArgs comb sheet rest st acc found

/-- `evaluateMin(expression)`. -/
def evaluateMin (sheet : Sheet) (expr : String) (st : PState) : JSVal × PState :=
  match extractArgsString "MIN" expr with
  | none => (.str "#ERROR!", st)
  | some inner =>
    if inner = "" then (.str "#ERROR!", st)
    else
      let (st, acc, found) :=
        minMaxArgs JSNum.jsMin sheet (parseArguments inner) st .posInf false
      if found then (.num acc, st) else (.str "#ERROR!", st)

/-- `evaluateMax(expression)`. -/
def evaluateMax (sheet : Sheet) (expr : String) (st : PState) : JSVal × PState :=
  match extractArgsString "MAX" expr with
  | none => (.str "#ERROR!", st)
  | some inner =>
    if inner = "" then (.str "#ERROR!", st)
    else
      let (st, acc, found) :=
        minMaxArgs JSNum.jsMax sheet (parseArguments inner) st .negInf false
      if found then (.num acc, st) else (.str "#ERROR!", st)

/-- Inner loop of `evaluateCount` over range cells. -/
def countCells (sheet : Sheet) : List String → PState → ℕ → PState × ℕ
  | [], st, count => (st, count)
  | cell :: rest, st, count =>
    let st := { st with cellsUsed := setAdd st.cellsUsed cell }
    let (raw, st) := readCell sheet cell st
    if raw ≠ .str "" && (jsParseFloatVal raw).isSome then
      countCells sheet rest st (count + 1)
    else countCells sheet rest st count

/-- Argument loop of `evaluateCount`. -/
def countArgs (sheet : Sheet) : List String → PState → ℕ → PState × ℕ
  | [], st, count => (st, count)
  | arg :: rest, st, count =>
    if arg.data.contains ':' then
      let (st, count) := countCells sheet (parseCellRange arg) st count
      countArgs sheet rest st count
    else if isValidCellReference arg then
      let (st, count) := countCells sheet [arg] st count
      countArgs sheet rest st count
    else
      if (jsParseFloat arg).isSome then countArgs sheet rest st (count + 1)
      else countArgs sheet rest st count

/-- `evaluateCount(expression)` (a failed or empty argument match returns the
number `0`). -/
def evaluateCount (sheet : Sheet) (expr : String) (st : PState) : JSVal × PState :=
  match extractArgsString "COUNT" expr with
  | none => (.num (.fin 0), st)
  | some inner =>
    if inner = "" then (.num (.fin 0), st)
    else
      let (st, count) := countArgs sheet (parseArguments inner) st 0
      (.num (.fin count), st)

/-- The boolean coercion of `evaluateAnd`/`evaluateOr`/`evaluateNot`: a string
is true when it is `"true"` (case-insensitively), `"1"`, or its `parseFloat`
differs from `0` — so a string whose `parseFloat` is `NaN` coerces to `true`
(`NaN !== 0`); anything else goes through `Boolean(value)`. -/
def logicalCoerce (v : JSVal) : Bool :=
  match v with
  | .str s =>
    String.mk (s.data.map Char.toLower) = "true" || s = "1" ||
      ((jsParseFloat s).elim true (fun q => q ≠ 0))
  | v => jsTruthy v

/-- Resolve one `AND`/`OR`/`NOT` argument: a well-formed cell reference is
recorded as a dependency and read; anything else goes to `math.evaluate`, its
failure leaving the raw argument string as the value. -/
def logicalArgValue (sheet : Sheet) (arg : String) (st : PState) :
    JSVal × PState :=
  if isValidCellReference arg then
    let st := { st with cellsUsed := setAdd st.cellsUsed arg }
    readCell sheet arg st
  else
    match mathEvaluate arg with
    | some v => (v, st)
    | none => (.str arg, st)

/-- Argument loop of `evaluateAnd`: returns `false` as soon as one argument
coerces to `false`, without touching the remaining arguments. -/
def evaluateAndArgs (sheet : Sheet) : List String → PState → JSVal × PState
  | [], st => (.boolv true, st)
  | arg :: rest, st =>
    let (value, st) := logicalArgValue sheet arg st
    if logicalCoerce value then evaluateAndArgs sheet rest st
    else (.boolv false, st)

/-- `evaluateAnd(expression)`. -/
def evaluateAnd (sheet : Sheet) (expr : String) (st : PState) : JSVal × PState :=
  match extractArgsString "AND" expr with
  | none => (.str "#ERROR!", st)
  | some inner =>
    if inner = "" then (.str "#ERROR!", st)
    else evaluateAndArgs sheet (parseArguments inner) st

/-- Argument loop of `evaluateOr`: returns `true` as soon as one argument
coerces to `true`. -/
def evaluateOrArgs (sheet : Sheet) : List String → PState → JSVal × PState
  | [], st => (.boolv false, st)
  | arg :: rest, st =>
    let (value, st) := logicalArgValue sheet arg st
    if logicalCoerce value then (.boolv true, st)
    else evaluateOrArgs sheet rest st

/-- `evaluateOr(expression)`. -/
def evaluateOr (sheet : Sheet) (expr : String) (st : PState) : JSVal × PState :=
  match extractArgsString "OR" expr with
  | none => (.str "#ERROR!", st)
  | some inner =>
    if inner = "" then (.str "#ERROR!", st)
    else evaluateOrArgs sheet (parseArguments inner) st

/-- `evaluateNot(expression)`: the whole (trimmed) argument string is a single
argument. -/
def evaluateNot (sheet : Sheet) (expr : String) (st : PState) : JSVal × PState :=
  match extractArgsString "NOT" expr with
  | none => (.str "#ERROR!", st)
  | some inner =>
    if inner = "" then (.str "#ERROR!", st)
    else
      let (value, st) := logicalArgValue sheet (trimS inner) st
      (.boolv (!logicalCoerce value), st)

/-- The match of the greedy regex `/IF\((.*),(.*),(.*)\)/i` on an expression
beginning with `IF(`: the region up to the last `)` must contain at least two
commas; backtracking gives the first group everything up to the second-to-last
comma and the other two groups the remaining two comma-separated segments. -/
def ifRegexMatch (expr : String) : Option (String × String × String) :=
  match extractArgsString "IF" expr with
  | none => none
  | some inner =>
    let segs := splitOnCharS ',' inner
    match segs.drop (segs.length - 2) with
    | [b, c] =>
      if segs.length < 3 then none
      else some (joinSep "," (segs.take (segs.length - 2)), b, c)
    | _ => none

/-- `evaluateIf(expression)`; `replaceCb` is the instance method
`replaceCellReferences` (which may recursively evaluate referenced formula
cells, hence the `Option`). -/
def evaluateIfW (replaceCb : String → PState → Option (String × PState))
    (sheet : Sheet) (expr : String) (st : PState) : Option (JSVal × PState) :=
  match ifRegexMatch expr with
  | none => some (.str "#ERROR!", st)
  | some (c0, t0, f0) =>
    let condition := trimS c0
    let trueValue := trimS t0
    let falseValue := trimS f0
    match replaceCb condition st with
    | none => none
    | some (processedCondition, st) =>
      match mathEvaluate processedCondition with
      | none => some (.str "#ERROR!", st)
      | some conditionResult =>
        let branch := if jsTruthy conditionResult then trueValue else falseValue
        if isValidCellReference branch then
          let (v, st) := readCell sheet branch st
          some (v, st)
        else if strStartsWith branch "\"" && strEndsWith branch "\"" then
          some (.str (String.mk ((branch.data.drop 1).take (branch.data.length - 2))), st)
        else
          match mathEvaluate branch with
          | some v => some (v, st)
          | none => some (.str branch, st)

/-! ### Reference substitution and `evaluate` -/

/-- `String(value).replace(/"/g, '\\"')`: escape double quotes. -/
def escapeQuotes (s : String) : List Char :=
  s.data.flatMap (fun c => if c = '"' then ['\\', '"'] else [c])

/-- At a position whose head is an `A`–`Z` character, the components the regex
examines: the maximal letter run, the maximal digit run after it, and the
remainder after both. -/
def refScan (l : List Char) : List Char × List Char × List Char :=
  let letters := l.takeWhile isUpperAZ
  let rest1 := l.drop letters.length
  let digits := rest1.takeWhile isDigit09
  (letters, digits, rest1.drop digits.length)

/-- The negative lookahead `(?![A-Za-z0-9])` after the digit run: satisfied at
end of input or before a non-alphanumeric character. -/
def lookaheadOk (rest : List Char) : Bool :=
  match rest.head? with
  | none => true
  | some d => !isAlnumJS d

/-- The scan of `expression.replace(/([A-Z]+[0-9]+)(?![A-Za-z0-9])/g, cb)`
together with the source's replacement callback.  At a position, a maximal
run of `A`–`Z` followed by a maximal non-empty run of `0`–`9` whose next
character is not alphanumeric is a match (no shorter run starting inside the
same letter run can match when the full one does not, so on failure the scan
resumes after the run and the digits).  The callback: record the dependency;
a cell already on `processingStack` is noted in `circularReferences` and
replaced by `0`; otherwise push the cell, read it (recursively evaluating a
`=`-prefixed value through `evalCb`), pop it again (`finally`), and splice in
the numeric value verbatim, `0` for the empty value, or the quoted escaped
text.  `fuel` only bounds the scan (any `fuel` beyond the input length is
enough); `evalCb` returning `none` (evaluation fuel ran out) aborts. -/
def replaceGo (evalCb : String → PState → Option (JSVal × PState))
    (sheet : Sheet) : ℕ → List Char → PState → Option (List Char × PState)
  | 0, _, _ => none
  | _, [], st => some ([], st)
  | fuel + 1, c :: rest, st =>
    if isUpperAZ c then
      match refScan (c :: rest) with
      | (letters, digits, rest2) =>
      if !digits.isEmpty && lookaheadOk rest2 then
        let cellMatch := String.mk (letters ++ digits)
        let st := { st with cellsUsed := setAdd st.cellsUsed cellMatch }
        if cellMatch ∈ st.processingStack then
          let st := { st with
            circularReferences := setAdd st.circularReferences cellMatch }
          match replaceGo evalCb sheet fuel rest2 st with
          | some (out, st) => some ('0' :: out, st)
          | none => none
        else
          let st := { st with processingStack := st.processingStack ++ [cellMatch] }
          let (value0, st) := readCell sheet cellMatch st
          let step := fun (value : JSVal) (st : PState) =>
            let st := { st with
              processingStack := setDelete st.processingStack cellMatch }
            let replacement : List Char :=
              if !jsIsNaN value && value ≠ .str "" then (valToString value).data
              else if value = .str "" then ['0']
              else '"' :: (escapeQuotes (valToString value) ++ ['"'])
            match replaceGo evalCb sheet fuel rest2 st with
            | some (out, st) => some (replacement ++ out, st)
            | none => none
          match value0 with
          | .str s =>
            if strStartsWith s "=" then
              match evalCb s st with
              | some (v, st) => step v st
              | none => none
            else step (.str s) st
          | v => step v st
      else
        match replaceGo evalCb sheet fuel rest2 st with
        | some (out, st) => some ((letters ++ digits) ++ out, st)
        | none => none
    else
      match replaceGo evalCb sheet fuel rest st with
      | some (out, st) => some (c :: out, st)
      | none => none

/-- `replaceCellReferences(expression)` (the guard returns `'0'` for the empty
string); bumps the substitution-run instrumentation counter. -/
def replaceCellReferencesW (evalCb : String → PState → Option (JSVal × PState))
    (sheet : Sheet) (expression : String) (st : PState) :
    Option (String × PState) :=
  let st := { st with substRuns := st.substRuns + 1 }
  if expression = "" then some ("0", st)
  else
    match replaceGo evalCb sheet (expression.data.length + 1) expression.data st with
    | some (out, st) => some (String.mk out, st)
    | none => none

/-- Result of a function-library branch that no claim exercises (`MEDIAN`,
`STDEV`, the text functions and the date functions — the last two groups
depend on the wall clock or on square roots).  The fixed marker value makes
any accidental reliance on these branches visible in a computed trace. -/
def unmodelledFunction (st : PState) : JSVal × PState :=
  (.str "#NOT-MODELLED-HERE!", st)

/-- `evaluateExpression(expression)`: the empty expression is the number `0`;
otherwise dispatch on the upper-cased prefix through the function catalog in
source order, and fall back to `math.evaluate` (whose thrown error, `undefined`
result or `NaN` result becomes `#ERROR!`). -/
def evaluateExpressionW (replaceCb : String → PState → Option (String × PState))
    (sheet : Sheet) (expression : String) (st : PState) :
    Option (JSVal × PState) :=
  if expression = "" then some (.num (.fin 0), st)
  else
    let upper := String.mk (expression.data.map Char.toUpper)
    if strStartsWith upper "SUM(" then some (evaluateSum sheet expression st)
    else if strStartsWith upper "AVERAGE(" then some (evaluateAverage sheet expression st)
    else if strStartsWith upper "MIN(" then some (evaluateMin sheet expression st)
    else if strStartsWith upper "MAX(" then some (evaluateMax sheet expression st)
    else if strStartsWith upper "COUNT(" then some (evaluateCount sheet expression st)
    else if strStartsWith upper "MEDIAN(" then some (unmodelledFunction st)
    else if strStartsWith upper "STDEV(" then some (unmodelledFunction st)
    else if strStartsWith upper "IF(" then evaluateIfW replaceCb sheet expression st
    else if strStartsWith upper "AND(" then some (evaluateAnd sheet expression st)
    else if strStartsWith upper "OR(" then some (evaluateOr sheet expression st)
    else if strStartsWith upper "NOT(" then some (evaluateNot sheet expression st)
    else if strStartsWith upper "CONCATENATE(" || strStartsWith upper "LEFT(" ||
        strStartsWith upper "RIGHT(" || strStartsWith upper "MID(" ||
        strStartsWith upper "LEN(" || strStartsWith upper "UPPER(" ||
        strStartsWith upper "LOWER(" || strStartsWith upper "NOW(" ||
        strStartsWith upper "TODAY(" || strStartsWith upper "DATE(" ||
        strStartsWith upper "YEAR(" || strStartsWith upper "MONTH(" ||
        strStartsWith upper "DAY(" then some (unmodelledFunction st)
    else
      match mathEvaluate expression with
      | none => some (.str "#ERROR!", st)
      | some v =>
        if v = .num .nan then some (.str "#ERROR!", st) else some (v, st)

/-- The body of `evaluate(formula)` with the recursive self-call abstracted:
guards for the empty / non-formula string; cache hit returns the stored value
and re-exposes the stored dependency set; on a miss, reset `cellsUsed`,
substitute references, surface `#CIRCULAR! (...)` (clearing the circular set)
if substitution flagged any, else evaluate the processed expression and store
`(result, cellsUsed)` in the cache, evicting the oldest entry past 1000. -/
def evaluateBody (evalCb : String → PState → Option (JSVal × PState))
    (sheet : Sheet) (formula : String) (st : PState) :
    Option (JSVal × PState) :=
  if formula = "" then some (.str "", st)
  else if !strStartsWith formula "=" then some (.str formula, st)
  else
    match cacheLookup st.cache formula with
    | some e =>
      some (e.value,
        { st with cellsUsed := e.deps, cacheHits := st.cacheHits + 1 })
    | none =>
      let st := { st with cacheMisses := st.cacheMisses + 1, cellsUsed := [] }
      let expression := trimS (String.mk (formula.data.drop 1))
      if expression = "" then some (.num (.fin 0), st)
      else
        match replaceCellReferencesW evalCb sheet expression st with
        | none => none
        | some (processedExpression, st) =>
          if st.circularReferences ≠ [] then
            let cells := joinSep ", " st.circularReferences
            some (.str ("#CIRCULAR! (" ++ cells ++ ")"),
              { st with circularReferences := [] })
          else
            match evaluateExpressionW (replaceCellReferencesW evalCb sheet)
                sheet processedExpression st with
            | none => none
            | some (result, st) =>
              let cache1 := cacheSet st.cache formula ⟨result, st.cellsUsed⟩
              let cache2 := if cache1.length > 1000 then cache1.drop 1 else cache1
              some (result, { st with cache := cache2 })

/-- `evaluate(formula)`, with fuel bounding the depth of formula-through-cell
recursion; `none` means the recursion budget ran out (the source would recurse
further, or in a cycle not caught by the guards, overflow the JS stack). -/
def evaluate : ℕ → Sheet → String → PState → Option (JSVal × PState)
  | 0, _, _, _ => none
  | fuel + 1, sheet, formula, st => evaluateBody (evaluate fuel sheet) sheet formula st

/-! ### The hook layer (`useSpreadsheetOperations`) and its context -/

/-- A stored cell as `getCellData` reports it (`{}` for a missing cell is the
record with empty value and empty formula). -/
structure CellData where
  value : JSVal
  formula : String
deriving DecidableEq, Repr

/-- The sheet store of `SpreadsheetContext`. -/
abbrev Store : Type := String → CellData

/-- The context's `getCellValue(cellId)`: `cells[cellId]?.value || ''` — any
falsy stored value (missing, empty string, `0`, `false`, `NaN`) reads as the
empty string. -/
def ctxGetCellValue (store : Store) : Sheet := fun cellId =>
  if jsTruthy (store cellId).value then (store cellId).value else .str ""

/-- The hook's `dependencies` map: source cell id to the (insertion-ordered)
set of cells whose formula referenced it. -/
abbrev Deps : Type := List (String × List String)

/-- `dependencies[k]` (`none` when the key is absent; an existing key with an
empty set is still truthy in the source's `if (dependencies[cellId])`). -/
def depsLookup (deps : Deps) (k : String) : Option (List String) :=
  (deps.find? (fun kv => kv.1 = k)).map Prod.snd

/-- `newDependencies[depCellId] = (newDependencies[depCellId] ?? new Set()).add(cellId)`. -/
def depsAdd (deps : Deps) (depCellId cellId : String) : Deps :=
  match depsLookup deps depCellId with
  | none => deps ++ [(depCellId, [cellId])]
  | some _ =>
    deps.map (fun kv =>
      if kv.1 = depCellId then (kv.1, setAdd kv.2 cellId) else kv)

/-- Is the edge `a → b` ("b depends on a") recorded? -/
def hasEdge (deps : Deps) (a b : String) : Bool :=
  (depsLookup deps a).elim false (fun s => b ∈ s)

/-- A dispatched action (React defers these; the stores the evaluations read
are the pre-dispatch ones, so the actions are collected rather than applied). -/
inductive Dispatch where
  | applyFormula (cellId formula : String) (value : JSVal)
  | updateCell (cellId value : String)
deriving DecidableEq, Repr

/-- The `forEach` body of `recalculateDependentCells` over the dependent
cells: a cell with a stored formula is re-evaluated, an `APPLY_FORMULA` action
is dispatched, and the propagation recurses into its own dependents (`cb`)
before the loop continues; a cell without a formula is skipped.  There is no
guard of any kind against revisiting a cell. -/
def recalcList (evalFuel : ℕ) (store : Store)
    (cb : PState → String → Option (PState × List Dispatch)) :
    List String → PState → List Dispatch → Option (PState × List Dispatch)
  | [], st, ds => some (st, ds)
  | cellId :: rest, st, ds =>
    let cellData := store cellId
    if cellData.formula ≠ "" then
      match evaluate evalFuel (ctxGetCellValue store) cellData.formula st with
      | none => none
      | some (evaluatedValue, st) =>
        match cb st cellId with
        | none => none
        | some (st, ds') =>
          recalcList evalFuel store cb rest st
            (ds ++ [.applyFormula cellId cellData.formula evaluatedValue] ++ ds')
    else recalcList evalFuel store cb rest st ds

/-- `recalculateDependentCells(changedCellId)`: no dependents means return;
otherwise process each dependent as above.  `rfuel` bounds the recursion depth
of the propagation itself, `evalFuel` the formula-through-cell recursion of
each evaluation; `none` means the propagation exceeded the recursion budget
(in the source: unbounded recursion, overflowing the JS stack). -/
def recalculateDependentCells (evalFuel : ℕ) (store : Store) (deps : Deps) :
    ℕ → PState → String → Option (PState × List Dispatch)
  | 0, _, _ => none
  | rfuel + 1, st, changedCellId =>
    match depsLookup deps changedCellId with
    | none => some (st, [])
    | some dependentCells =>
      recalcList evalFuel store
        (recalculateDependentCells evalFuel store deps rfuel)
        dependentCells st []

/-- `updateCellValue(cellId, value)`: a `=`-prefixed value is evaluated, an
edge `(dep → cellId)` is added to the dependency map for every cell used by
the evaluation (nothing is ever removed from the map), and `APPLY_FORMULA` is
dispatched; a plain value dispatches `UPDATE_CELL` and, when the changed cell
has recorded dependents, triggers recalculation. -/
def updateCellValue (evalFuel rfuel : ℕ) (store : Store) (deps : Deps)
    (st : PState) (cellId value : String) :
    Option (Deps × PState × List Dispatch) :=
  if strStartsWith value "=" then
    match evaluate evalFuel (ctxGetCellValue store) value st with
    | none => none
    | some (evaluatedValue, st) =>
      let newDeps := st.cellsUsed.foldl
        (fun d depCellId => depsAdd d depCellId cellId) deps
      some (newDeps, st, [.applyFormula cellId value evaluatedValue])
  else
    let d0 : List Dispatch := [.updateCell cellId value]
    match depsLookup deps cellId with
    | none => some (deps, st, d0)
    | some _ =>
      match recalculateDependentCells evalFuel store deps rfuel st cellId with
      | none => none
      | some (st, ds) => some (deps, st, d0 ++ ds)

/-- The call structure of `recalculateDependentCells` in isolation: whether
the propagation, started at `changedCellId` with the cells in `active` still
mid-recalculation, ever enters a cell that is already mid-recalculation.  The
result of each dependent's evaluation is only dispatched and never influences
which cells are visited, so evaluation is omitted; `false` at fuel `0` means
"no re-entry observed within the budget". -/
def recalcReenters (store : Store) (deps : Deps) :
    ℕ → List String → String → Bool
  | 0, _, _ => false
  | rfuel + 1, active, changedCellId =>
    if changedCellId ∈ active then true
    else
      match depsLookup deps changedCellId with
      | none => false
      | some dependents =>
        (dependents.filter (fun c => (store c).formula ≠ "")).any
          (fun c => recalcReenters store deps rfuel (active ++ [changedCellId]) c)

/-! ### Statement-side definitions and concrete scenarios -/

/-- The numeric value `getNumericCellValue` produces for a cell (its
`parseFloat`, with `NaN` as `0`), as a pure function of the sheet. -/
def averageCellValue (sheet : Sheet) (cell : String) : JSNum :=
  (jsParseFloatVal (sheet cell)).getD (.fin 0)

/-- Does a cell count towards the `AVERAGE` divisor?  Exactly the source's
condition `value !== 0 || getCellValue(cell) !== ''`. -/
def averageQualifies (sheet : Sheet) (cell : String) : Bool :=
  averageCellValue sheet cell != .fin 0 || sheet cell != .str ""

/-- The qualifying cells of a cell list. -/
def averageQualifyingCells (sheet : Sheet) (cells : List String) : List String :=
  cells.filter (averageQualifies sheet)

/-- Sum of the numeric values of a cell list. -/
def averageSumOf (sheet : Sheet) (cells : List String) : JSNum :=
  cells.foldl (fun s c => s.add (averageCellValue sheet c)) (.fin 0)

/-- The cells an `AVERAGE` argument list ranges over: every `:`-containing
argument expands through `parseCellRange`, every other argument is a single
cell. -/
def expandAverageArgs (args : List String) : List String :=
  args.flatMap (fun a => if a.data.contains ':' then parseCellRange a else [a])

/-- The circular sheet of the C1 scenario: `A1` holds `=B1`, `B1` holds
`=A1` (as reported by the parser's `getCellValue` capability). -/
def cycSheet : Sheet := fun c =>
  if c = "A1" then .str "=B1" else if c = "B1" then .str "=A1" else .str ""

/-- A sheet with no cell contents. -/
def blankSheet : Sheet := fun _ => .str ""

/-- A sheet whose only content is the plain number text `7` in `B2`. -/
def sheetB2seven : Sheet := fun c => if c = "B2" then .str "7" else .str ""

/-- A sheet where `B2` holds the formula `=C1` and `C1` holds `1`. -/
def sheetB2formula : Sheet := fun c =>
  if c = "B2" then .str "=C1" else if c = "C1" then .str "1" else .str ""

/-- The C6 scenario: a three-cell column `A1=1`, `A2` blank, `A3=3`. -/
def sheetAvg : Sheet := fun c =>
  if c = "A1" then .str "1" else if c = "A3" then .str "3" else .str ""

/-- The cell-reference tokens the substitution regex
`([A-Z]+[0-9]+)(?![A-Za-z0-9])` matches in an expression, in scan order —
the same scan as `replaceGo`, without the replacement (same fuel
convention). -/
def cellRefTokens : ℕ → List Char → List String
  | 0, _ => []
  | _, [] => []
  | fuel + 1, c :: rest =>
    if isUpperAZ c then
      match refScan (c :: rest) with
      | (letters, digits, rest2) =>
        if !digits.isEmpty && lookaheadOk rest2 then
          String.mk (letters ++ digits) :: cellRefTokens fuel rest2
        else cellRefTokens fuel rest2
    else cellRefTokens fuel rest

/-- A sheet value that does not trigger recursive evaluation during
substitution: anything but a `=`-prefixed string. -/
def plainVal (v : JSVal) : Prop :=
  ∀ s, v = .str s → strStartsWith s "=" = false

/-- The C3 scenario store: plain numbers in `A1` and `C1`. -/
def storeC3 : Store := fun c =>
  if c = "A1" then ⟨.num (.fin 1), ""⟩
  else if c = "C1" then ⟨.num (.fin 2), ""⟩
  else ⟨.str "", ""⟩

/-- The C4 scenario store: `A1` and `B1` hold each other's references as
formulas (with previously computed numeric values), `C1` is a plain cell. -/
def storeC4 : Store := fun c =>
  if c = "A1" then ⟨.num (.fin 1), "=B1"⟩
  else if c = "B1" then ⟨.num (.fin 2), "=A1"⟩
  else if c = "C1" then ⟨.num (.fin 5), ""⟩
  else ⟨.str "", ""⟩

/-- The C4 scenario dependency map, cyclic between `A1` and `B1` and entered
from the plain cell `C1`: `C1 → A1`, `A1 → B1`, `B1 → A1`. -/
def depsC4 : Deps := [("C1", ["A1"]), ("A1", ["B1"]), ("B1", ["A1"])]

/-- Cache entry produced by the first C3 update (`B1` gets `=A1`). -/
def entryA1C3 : CacheEntry := ⟨.num (.fin 1), ["A1"]⟩

/-- Parser state after the first C3 update. -/
def stAfterB1 : PState :=
  { initPState with
    cellsUsed := ["A1"],
    cache := [("=A1", entryA1C3)],
    cacheMisses := 1, substRuns := 1, valueReads := 1 }

/-- A sample cache entry for the C2 witness. -/
def entryX1 : CacheEntry := ⟨.num (.fin 3), ["X1"]⟩

/-- A parser state whose cache holds `entryX1` under the key `=X1`. -/
def stCachedX1 : PState := { initPState with cache := [("=X1", entryX1)] }

/-! ## Theorems -/

/-- **C1** (confirmed).  For a sheet where cell `A1` holds `=B1` and cell `B1`
holds `=A1`, evaluating A1's formula `=B1` on a fresh parser terminates —
already within recursion depth 4 it returns a value rather than exhausting the
budget — and that value is the string `#CIRCULAR! (B1)`: an error marker that
mentions `B1` (one of the two cells of the cycle) and, being a string, is
distinct from every numeric result. -/
theorem claim_C1_circular_eval :
    (evaluate 4 cycSheet "=B1" initPState).map Prod.fst =
      some (.str "#CIRCULAR! (B1)") ∧
    (∃ a b : String, "#CIRCULAR! (B1)" = a ++ "B1" ++ b) ∧
    (∀ x : JSNum, JSVal.str "#CIRCULAR! (B1)" ≠ .num x) := by
  refine ⟨by with_unfolding_all decide, ⟨"#CIRCULAR! (", ")", by decide⟩, ?_⟩
  intro x h
  exact JSVal.noConfusion h

/-- **C5, counterexample.**  Evaluating `=5/0` on a fresh parser does not
return the `#DIV/0!` marker: it returns the number `Infinity` (the `mathjs`
fallback computes IEEE division and the result-validity check only rejects
`undefined`/`null`/`NaN`), refuting the claim as stated. -/
theorem claim_C5_counterexample :
    (evaluate 2 blankSheet "=5/0" initPState).map Prod.fst =
      some (.num .posInf) ∧
    (JSVal.num .posInf ≠ .str "#DIV/0!") := by
  refine ⟨by with_unfolding_all decide, ?_⟩
  intro h
  exact JSVal.noConfusion h

/-- **C5, amended** (corrected).  Evaluating `=5/0` does not throw and does
not return `#DIV/0!`; it returns `Infinity`.  The same holds for `=k/0` for
every nonzero single-digit numerator `k`, and at the level of the arithmetic
the fallback evaluator applies, dividing any nonzero finite operand by zero
yields a signed infinity rather than an error marker.  (`#DIV/0!` is produced
only by `AVERAGE` over zero qualifying values.) -/
theorem claim_C5_div_infinity :
    ((evaluate 2 blankSheet "=5/0" initPState).map Prod.fst =
      some (.num .posInf)) ∧
    (∀ k : ℕ, k ≤ 9 → 1 ≤ k →
      (evaluate 2 blankSheet (String.mk ['=', digitChar k, '/', '0'])
          initPState).map Prod.fst = some (.num .posInf)) ∧
    (∀ q : ℚ, 0 < q → JSNum.div (.fin q) (.fin 0) = .posInf) ∧
    (∀ q : ℚ, q < 0 → JSNum.div (.fin q) (.fin 0) = .negInf) := by
  refine ⟨by with_unfolding_all decide, by with_unfolding_all decide, ?_, ?_⟩
  · intro q hq
    simp only [JSNum.div]
    rw [if_neg (by norm_num), if_pos hq]
  · intro q hq
    simp only [JSNum.div]
    rw [if_neg (by norm_num), if_neg (by simp; linarith), if_pos hq]

/-- **C5, witness** for the amended theorem: instantiating it at `k = 7` and
at the operand `5`. -/
theorem claim_C5_div_infinity_witness :
    ((evaluate 2 blankSheet (String.mk ['=', digitChar 7, '/', '0'])
        initPState).map Prod.fst = some (.num .posInf)) ∧
    JSNum.div (.fin 5) (.fin 0) = .posInf :=
  ⟨claim_C5_div_infinity.2.1 7 (by decide) (by decide),
   claim_C5_div_infinity.2.2.1 5 (by norm_num)⟩

/-- **C10, counterexample.**  For the formula `=IF(1,B2,3)` over a sheet where
`B2` holds the plain text `7` — the taken branch is the bare reference `B2`,
which does not occur in the condition `1` — evaluation returns B2's value `7`,
but the dependency set exposed by `getCellsUsed` is `["B2"]`: the branch cell
id IS added (top-level reference substitution records every matched reference
before the `IF` dispatch ever runs), refuting the claim's "does not add the
branch cell id". -/
theorem claim_C10_counterexample :
    (evaluate 3 sheetB2seven "=IF(1,B2,3)" initPState).map
        (fun p => (p.1, getCellsUsed p.2)) =
      some (.num (.fin 7), ["B2"]) := by
  with_unfolding_all decide

/-- **C3, counterexample.**  Writing `=A1` to `B1` and then replacing B1's
formula by `=C1`: the latest evaluation of B1's formula read only `C1`
(`getCellsUsed` is `["C1"]`), yet the edge `A1 → B1` recorded for the previous
formula is still present — `updateCellValue` never removes old edges — so the
edge set is not "exactly the set of cell ids read during that evaluation". -/
theorem claim_C3_counterexample :
    ((updateCellValue 3 3 storeC3 [] initPState "B1" "=A1").bind (fun r =>
        updateCellValue 3 3 storeC3 r.1 r.2.1 "B1" "=C1")).map
      (fun r => (hasEdge r.1 "A1" "B1", hasEdge r.1 "C1" "B1",
        getCellsUsed r.2.1)) =
    some (true, true, ["C1"]) := by
  with_unfolding_all decide

/-- Helper for C4: on the C4 configuration (recorded dependency edges
`A1 → B1` and `B1 → A1`, both cells holding formulas), the propagation entered
anywhere on the cycle exhausts every recursion budget, whatever the parser
state and evaluation fuel: each level re-enters the other cell of the cycle
unconditionally. -/
theorem recalcC4_cycle (eF : ℕ) : ∀ (rfuel : ℕ) (pst : PState),
    recalculateDependentCells eF storeC4 depsC4 rfuel pst "A1" = none ∧
    recalculateDependentCells eF storeC4 depsC4 rfuel pst "B1" = none := by
  intro rfuel
  induction rfuel with
  | zero => exact fun pst => ⟨rfl, rfl⟩
  | succ n ih =>
    intro pst
    have hA : depsLookup depsC4 "A1" = some ["B1"] := by with_unfolding_all decide
    have hB : depsLookup depsC4 "B1" = some ["A1"] := by with_unfolding_all decide
    have hfB : (storeC4 "B1").formula = "=A1" := by with_unfolding_all decide
    have hfA : (storeC4 "A1").formula = "=B1" := by with_unfolding_all decide
    constructor
    · simp only [recalculateDependentCells, hA, recalcList, hfB]
      rw [if_pos (by decide : ("=A1" : String) ≠ "")]
      cases hev : evaluate eF (ctxGetCellValue storeC4) "=A1" pst with
      | none => rfl
      | some p =>
        obtain ⟨v, st'⟩ := p
        simp [(ih st').2]
    · simp only [recalculateDependentCells, hB, recalcList, hfA]
      rw [if_pos (by decide : ("=B1" : String) ≠ "")]
      cases hev : evaluate eF (ctxGetCellValue storeC4) "=B1" pst with
      | none => rfl
      | some p =>
        obtain ⟨v, st'⟩ := p
        simp [(ih st').1]

/-- **C4, counterexample.**  On a store where `A1` holds formula `=B1`, `B1`
holds formula `=A1` and `C1` is a plain cell, with the (cyclic) recorded
dependency edges `C1 → A1`, `A1 → B1`, `B1 → A1`: triggering the propagation
at `C1` re-enters `A1` while `A1` is still mid-recalculation (first conjunct,
the call-structure instrumentation of `recalculateDependentCells`), and the
propagation does not terminate — at the concrete recursion budget 20 it is
still unfinished (second conjunct) — refuting both the "never re-entered" and
the "terminates even when the recorded dependency graph is cyclic" parts of
the claim. -/
theorem claim_C4_counterexample :
    (recalcReenters storeC4 depsC4 6 [] "C1" = true) ∧
    (recalculateDependentCells 5 storeC4 depsC4 20 initPState "C1" = none) := by
  exact ⟨by with_unfolding_all decide, by with_unfolding_all decide⟩

/-- **C4, amended** (corrected).  `recalculateDependentCells` has no guard
against re-entering a cell that is mid-recalculation in the current
propagation pass: on the cyclic C4 configuration the pass started at the
changed cell `C1` re-enters `A1` while it is still being processed (first
conjunct), and the propagation does not terminate — it exhausts every
recursion budget, whatever the parser state and per-evaluation fuel (second
conjunct; in the source this is unbounded recursion into the host stack). -/
theorem claim_C4_no_guard :
    (recalcReenters storeC4 depsC4 6 [] "C1" = true) ∧
    (∀ (eF rfuel : ℕ) (pst : PState),
      recalculateDependentCells eF storeC4 depsC4 rfuel pst "C1" = none) := by
  refine ⟨by with_unfolding_all decide, ?_⟩
  intro eF rfuel pst
  cases rfuel with
  | zero => rfl
  | succ n =>
    have hC : depsLookup depsC4 "C1" = some ["A1"] := by with_unfolding_all decide
    have hfA : (storeC4 "A1").formula = "=B1" := by with_unfolding_all decide
    simp only [recalculateDependentCells, hC, recalcList, hfA]
    rw [if_pos (by decide : ("=B1" : String) ≠ "")]
    cases hev : evaluate eF (ctxGetCellValue storeC4) "=B1" pst with
    | none => rfl
    | some p =>
      obtain ⟨v, st'⟩ := p
      simp [(recalcC4_cycle eF n st').1]

/-- **C2** (confirmed).  First conjunct: whenever the cache holds an entry for
a formula string, `evaluate` returns the stored value and the final state is
the old one with `cellsUsed` replaced by the stored dependency set (so
`getCellsUsed` re-exposes it) and only the hit counter bumped — in particular
the substitution-run and `getCellValue` instrumentation counters and the cache
itself are untouched: nothing is re-run.  Second conjunct:
`invalidateCellDependencies` keeps exactly the cache entries whose dependency
set is disjoint from the argument — it removes exactly those that intersect
it.  Third conjunct, concretely: evaluating `=B2+1` twice with no
invalidation returns the identical result with one substitution run, one cell
read and one cache hit, re-exposing `["B2"]`.  Fourth conjunct: after
invalidating `B2`, the second evaluation recomputes (two substitution runs,
two reads, two misses). -/
theorem claim_C2_cache :
    (∀ (fuel : ℕ) (sheet : Sheet) (st : PState) (f : String) (e : CacheEntry),
      strStartsWith f "=" = true →
      cacheLookup st.cache f = some e →
      evaluate (fuel + 1) sheet f st =
        some (e.value,
          { st with cellsUsed := e.deps, cacheHits := st.cacheHits + 1 })) ∧
    (∀ (cache : List (String × CacheEntry)) (s : List String)
        (kv : String × CacheEntry),
      kv ∈ invalidateCellDependencies cache s ↔
        (kv ∈ cache ∧ ¬ ∃ cid ∈ s, cid ∈ kv.2.deps)) ∧
    (((evaluate 3 sheetB2seven "=B2+1" initPState).bind (fun p =>
        evaluate 3 sheetB2seven "=B2+1" p.2)).map
      (fun p => (p.1, getCellsUsed p.2, p.2.substRuns, p.2.valueReads,
        p.2.cacheHits)) = some (.num (.fin 8), ["B2"], 1, 1, 1)) ∧
    (((evaluate 3 sheetB2seven "=B2+1" initPState).bind (fun p =>
        evaluate 3 sheetB2seven "=B2+1"
          { p.2 with cache := invalidateCellDependencies p.2.cache ["B2"] })).map
      (fun p => (p.1, p.2.substRuns, p.2.valueReads, p.2.cacheMisses)) =
      some (.num (.fin 8), 2, 2, 2)) := by
  refine ⟨?_, ?_, by with_unfolding_all decide, by with_unfolding_all decide⟩
  · intro fuel sheet st f e h1 h2
    have hne : f ≠ "" := by
      intro h; subst h; exact absurd h1 (by decide)
    simp only [evaluate, evaluateBody, if_neg hne, h1, Bool.not_true,
      Bool.false_eq_true, if_false, h2]
  · intro cache s kv
    simp only [invalidateCellDependencies, List.mem_filter, decide_not,
      Bool.not_eq_true', Bool.not_eq_true, List.any_eq_false, decide_eq_true_eq]
    constructor
    · rintro ⟨hm, hall⟩
      exact ⟨hm, by rintro ⟨cid, hcid, hmem⟩; exact absurd hmem (by
        have := hall cid hcid; simpa using this)⟩
    · rintro ⟨hm, hne⟩
      refine ⟨hm, ?_⟩
      intro cid hcid
      by_contra hc
      exact hne ⟨cid, hcid, by simpa using hc⟩

/-- **C2, witness**: the cache-hit conjunct applied to a parser state whose
cache holds an entry for `=X1`, and the invalidation conjunct applied to that
cache and the changed set `["X1"]`. -/
theorem claim_C2_cache_witness :
    (evaluate 5 blankSheet "=X1" stCachedX1 =
      some (.num (.fin 3),
        { stCachedX1 with cellsUsed := ["X1"], cacheHits := 1 })) ∧
    (("=X1", entryX1) ∈ invalidateCellDependencies [("=X1", entryX1)] ["X1"] ↔
      (("=X1", entryX1) ∈ [("=X1", entryX1)] ∧
        ¬ ∃ cid ∈ ["X1"], cid ∈ entryX1.deps)) :=
  ⟨claim_C2_cache.1 4 blankSheet stCachedX1 "=X1" entryX1 (by decide)
      (by with_unfolding_all decide),
   claim_C2_cache.2.1 [("=X1", entryX1)] ["X1"] ("=X1", entryX1)⟩

/-- Membership in the JavaScript-set model: `setAdd` adds exactly the new
element. -/
theorem mem_setAdd {l : List String} {x b : String} :
    b ∈ setAdd l x ↔ b ∈ l ∨ b = x := by
  simp only [setAdd]
  split
  · rename_i h
    constructor
    · exact fun hb => Or.inl hb
    · rintro (hb | rfl)
      · exact hb
      · exact h
  · simp [List.mem_append]

theorem find?_mapUpdate (l : List (String × List String)) (x a : String)
    (c : String) :
    ((l.map fun kv => if kv.1 = x then (kv.1, setAdd kv.2 c) else kv).find?
        fun kv => kv.1 = a) =
      ((l.find? fun kv => kv.1 = a).map
        fun kv => if kv.1 = x then (kv.1, setAdd kv.2 c) else kv) := by
  induction l with
  | nil => rfl
  | cons hd tl ih =>
    have hfst : (if hd.1 = x then (hd.1, setAdd hd.2 c) else hd).1 = hd.1 := by
      split <;> rfl
    by_cases h : hd.1 = a
    · rw [List.map_cons,
        List.find?_cons_of_pos _ (by simp only [decide_eq_true_eq]; exact hfst.trans h),
        List.find?_cons_of_pos _ (by simp only [decide_eq_true_eq]; exact h),
        Option.map_some']
    · rw [List.map_cons,
        List.find?_cons_of_neg _ (by simp only [decide_eq_true_eq]; rw [hfst]; exact h),
        List.find?_cons_of_neg _ (by simp only [decide_eq_true_eq]; exact h), ih]

theorem depsLookup_depsAdd (deps : Deps) (x c a : String) :
    depsLookup (depsAdd deps x c) a =
      if a = x then some (setAdd ((depsLookup deps x).getD []) c)
      else depsLookup deps a := by
  unfold depsAdd
  cases h : depsLookup deps x with
  | none =>
    simp only [depsLookup] at h ⊢
    rw [List.find?_append]
    cases hf : deps.find? fun kv => kv.1 = x with
    | none =>
      by_cases hax : a = x
      · subst hax
        rw [hf]
        simp [h, setAdd]
      · cases hg : deps.find? fun kv => kv.1 = a with
        | none => simp [hg, hax, Ne.symm hax]
        | some b => simp [hg, hax]
    | some b => simp [hf] at h
  | some s =>
    simp only [depsLookup] at h ⊢
    rw [find?_mapUpdate]
    cases hf : deps.find? fun kv => kv.1 = x with
    | none => simp [hf] at h
    | some b =>
      have hbx : b.1 = x := by simpa using List.find?_some hf
      have hbs : b.2 = s := by
        rw [hf] at h
        simpa using h
      by_cases hax : a = x
      · subst hax
        rw [hf]
        simp [hbx, hbs]
      · cases hg : deps.find? fun kv => kv.1 = a with
        | none => simp [hg, hax]
        | some b' =>
          have hb'a : b'.1 = a := by simpa using List.find?_some hg
          simp [hg, hax, show ¬ (b'.1 = x) from fun hc => hax (hb'a ▸ hc ▸ rfl)]

theorem hasEdge_depsAdd (deps : Deps) (x c a b : String) :
    hasEdge (depsAdd deps x c) a b = true ↔
      (hasEdge deps a b = true ∨ (a = x ∧ b = c)) := by
  unfold hasEdge
  rw [depsLookup_depsAdd]
  by_cases hax : a = x
  · subst hax
    rw [if_pos rfl]
    cases h : depsLookup deps a with
    | none => simp [mem_setAdd]
    | some s => simp [mem_setAdd]
  · rw [if_neg hax]
    cases h : depsLookup deps a with
    | none => simp [hax]
    | some s => simp [hax]

theorem hasEdge_foldl (l : List String) (c a b : String) :
    ∀ deps : Deps,
      hasEdge (l.foldl (fun d depCellId => depsAdd d depCellId c) deps) a b = true ↔
        (hasEdge deps a b = true ∨ (a ∈ l ∧ b = c)) := by
  induction l with
  | nil => simp
  | cons hd tl ih =>
    intro deps
    rw [List.foldl_cons, ih, hasEdge_depsAdd]
    constructor
    · rintro ((he | ⟨rfl, rfl⟩) | ⟨hm, rfl⟩)
      · exact Or.inl he
      · exact Or.inr ⟨List.mem_cons_self _ _, rfl⟩
      · exact Or.inr ⟨List.mem_cons_of_mem _ hm, rfl⟩
    · rintro (he | ⟨hm, rfl⟩)
      · exact Or.inl (Or.inl he)
      · rcases List.mem_cons.mp hm with rfl | hm'
        · exact Or.inl (Or.inr ⟨rfl, rfl⟩)
        · exact Or.inr ⟨hm', rfl⟩

/-- Claim C3 (corrected).  After a successful evaluation of cell `B`'s
formula, `updateCellValue` adds an edge `A → B` for every cell `A` read
during that evaluation, but removes nothing: the resulting edge set contains
`A → B` if and only if the old set did or `A` was read this time.  Stale
edges from a previous formula of `B` therefore persist, refuting the removal
half of the claim (see the counterexample) while establishing the cumulative
behaviour. -/
theorem claim_C3_edges_cumulative :
    ∀ (eF rF : ℕ) (store : Store) (deps : Deps) (st : PState)
      (cellId value : String) (d' : Deps) (st' : PState) (ds : List Dispatch),
      strStartsWith value "=" = true →
      updateCellValue eF rF store deps st cellId value = some (d', st', ds) →
      ∀ a b : String, hasEdge d' a b = true ↔
        (hasEdge deps a b = true ∨ (a ∈ getCellsUsed st' ∧ b = cellId)) := by
  intro eF rF store deps st cellId value d' st' ds h1 h2 a b
  unfold updateCellValue at h2
  rw [if_pos h1] at h2
  cases hev : evaluate eF (ctxGetCellValue store) value st with
  | none => rw [hev] at h2; cases h2
  | some p =>
    obtain ⟨v, st1⟩ := p
    rw [hev] at h2
    simp only [Option.some.injEq, Prod.mk.injEq] at h2
    obtain ⟨hd, hst, hds⟩ := h2
    subst hd
    subst hst
    exact hasEdge_foldl _ _ _ _ _

/-- **C3, witness** for the amended theorem: the first C3 update (writing
`=A1` into `B1` starting from an empty edge map), instantiated at the edge
`A1 → B1`. -/
theorem claim_C3_edges_cumulative_witness :
    hasEdge [("A1", ["B1"])] "A1" "B1" = true ↔
      (hasEdge ([] : Deps) "A1" "B1" = true ∨
        ("A1" ∈ getCellsUsed stAfterB1 ∧ "B1" = "B1")) :=
  claim_C3_edges_cumulative 3 3 storeC3 [] initPState "B1" "=A1"
    [("A1", ["B1"])] stAfterB1 [.applyFormula "B1" "=A1" (.num (.fin 1))]
    (by decide) (by with_unfolding_all decide) "A1" "B1"

/-- Helper for C9: over a sheet whose cells all hold plain (non-formula)
values, reference substitution always completes (given fuel beyond the input
length) and its final dependency set is the initial one extended, in scan
order, with every token the substitution regex matches — regardless of where
in the expression the tokens sit. -/
theorem replaceGo_plain_records (evalCb : String → PState → Option (JSVal × PState))
    (sheet : Sheet) (hplain : ∀ c, plainVal (sheet c)) :
    ∀ (fuel : ℕ) (l : List Char) (st : PState), l.length < fuel →
      ∃ out st', replaceGo evalCb sheet fuel l st = some (out, st') ∧
        st'.cellsUsed = (cellRefTokens fuel l).foldl setAdd st.cellsUsed := by
  intro fuel
  induction fuel with
  | zero => intro l st h; omega
  | succ n ih =>
    intro l st hlen
    cases l with
    | nil => exact ⟨[], st, rfl, rfl⟩
    | cons c rest =>
      simp only [replaceGo, cellRefTokens]
      by_cases hc : isUpperAZ c = true
      · rw [if_pos hc, if_pos hc]
        rcases hscan : refScan (c :: rest) with ⟨letters, digits, rest2⟩
        dsimp only [readCell]
        have hR : rest2 = ((c :: rest).drop
            ((c :: rest).takeWhile isUpperAZ).length).drop
              ((((c :: rest).drop ((c :: rest).takeWhile isUpperAZ).length)).takeWhile isDigit09).length := by
          have := congrArg (fun p => p.2.2) hscan
          simpa [refScan] using this.symm
        have hr2 : rest2.length < n := by
          rw [hR, List.length_drop, List.length_drop,
            List.takeWhile_cons_of_pos hc]
          simp only [List.length_cons] at hlen ⊢
          omega
        by_cases hm : (!digits.isEmpty && lookaheadOk rest2) = true
        · rw [if_pos hm, if_pos hm]
          by_cases hstack : (⟨letters ++ digits⟩ : String) ∈ st.processingStack
          · rw [if_pos hstack]
            obtain ⟨out, st', heq, hcu⟩ := ih rest2 ({ st with cellsUsed := setAdd st.cellsUsed ⟨letters ++ digits⟩, circularReferences := setAdd st.circularReferences ⟨letters ++ digits⟩ }) hr2
            rw [heq]
            exact ⟨'0' :: out, st', rfl, by rw [hcu]; simp⟩
          · rw [if_neg hstack]
            cases hval : sheet (⟨letters ++ digits⟩ : String) with
            | str sv =>
              have hns : strStartsWith sv "=" = false :=
                hplain (⟨letters ++ digits⟩ : String) sv hval
              dsimp only
              simp only [hns, Bool.false_eq_true, if_false]
              obtain ⟨out, st', heq, hcu⟩ := ih rest2 ({ st with cellsUsed := setAdd st.cellsUsed ⟨letters ++ digits⟩, processingStack := setDelete (st.processingStack ++ [⟨letters ++ digits⟩]) ⟨letters ++ digits⟩, valueReads := st.valueReads + 1 }) hr2
              rw [heq]
              refine ⟨_, st', rfl, by rw [hcu]; simp⟩
            | num x =>
              dsimp only
              obtain ⟨out, st', heq, hcu⟩ := ih rest2 ({ st with cellsUsed := setAdd st.cellsUsed ⟨letters ++ digits⟩, processingStack := setDelete (st.processingStack ++ [⟨letters ++ digits⟩]) ⟨letters ++ digits⟩, valueReads := st.valueReads + 1 }) hr2
              rw [heq]
              refine ⟨_, st', rfl, by rw [hcu]; simp⟩
            | boolv bv =>
              dsimp only
              obtain ⟨out, st', heq, hcu⟩ := ih rest2 ({ st with cellsUsed := setAdd st.cellsUsed ⟨letters ++ digits⟩, processingStack := setDelete (st.processingStack ++ [⟨letters ++ digits⟩]) ⟨letters ++ digits⟩, valueReads := st.valueReads + 1 }) hr2
              rw [heq]
              refine ⟨_, st', rfl, by rw [hcu]; simp⟩
        · rw [if_neg hm, if_neg hm]
          obtain ⟨out, st', heq, hcu⟩ := ih rest2 st hr2
          rw [heq]
          exact ⟨_, st', rfl, hcu⟩
      · rw [if_neg hc, if_neg hc]
        have hr : rest.length < n := by
          simp only [List.length_cons] at hlen; omega
        obtain ⟨out, st', heq, hcu⟩ := ih rest st hr
        rw [heq]
        exact ⟨_, st', rfl, hcu⟩

/-- **C9, counterexample.**  Two refutations of "every cell reference
appearing in any argument is added to the dependency set".  First: in the
formula `=AND(0, B2)` over a sheet where `B2` itself holds the formula `=C1`
(and `C1` holds `1`), the result is determined by the first argument `0`, and
the final dependency set is `["C1"]` — the argument reference `B2` is NOT in
it (the nested evaluation of B2's formula resets `cellsUsed`).  Second: the
`evaluateAnd` method itself, applied to an unsubstituted `AND(0, B2)`,
returns `false` at the first argument and leaves the parser state completely
untouched — it records no reference of the later argument. -/
theorem claim_C9_counterexample :
    ((evaluate 4 sheetB2formula "=AND(0, B2)" initPState).map
        (fun p => (p.1, getCellsUsed p.2)) = some (.boolv false, ["C1"])) ∧
    ("B2" ∉ (["C1"] : List String)) ∧
    (evaluateAnd sheetB2seven "AND(0, B2)" initPState = (.boolv false, initPState)) := by
  refine ⟨by with_unfolding_all decide, by decide, by with_unfolding_all decide⟩

/-- **C9, amended** (corrected).  When the referenced cells hold plain
(non-formula) values, every cell reference appearing anywhere in an
`AND(...)`/`OR(...)` formula is added to the dependency set even when the
boolean result is determined before later arguments are examined: the
top-level substitution records every regex-matched token before the logical
function runs (first conjunct, for arbitrary expressions over plain-valued
sheets).  Concretely, `=AND(0, B2)` is decided by its first argument yet ends
with dependency set `["B2"]`, and likewise `=OR(1, B2)` (second and third
conjuncts); `B2` is indeed the one token of the `AND` expression (fourth).
When a referenced cell holds a formula instead, the nested evaluation resets
the set and earlier references are lost (see the counterexample). -/
theorem claim_C9_logical_deps :
    (∀ (evalCb : String → PState → Option (JSVal × PState)) (sheet : Sheet),
      (∀ c, plainVal (sheet c)) →
      ∀ (fuel : ℕ) (l : List Char) (st : PState), l.length < fuel →
        ∃ out st', replaceGo evalCb sheet fuel l st = some (out, st') ∧
          st'.cellsUsed = (cellRefTokens fuel l).foldl setAdd st.cellsUsed) ∧
    ((evaluate 3 sheetB2seven "=AND(0, B2)" initPState).map
        (fun p => (p.1, getCellsUsed p.2)) = some (.boolv false, ["B2"])) ∧
    ((evaluate 3 sheetB2seven "=OR(1, B2)" initPState).map
        (fun p => (p.1, getCellsUsed p.2)) = some (.boolv true, ["B2"])) ∧
    (cellRefTokens 11 "AND(0, B2)".data = ["B2"]) := by
  exact ⟨fun cb sheet hp => replaceGo_plain_records cb sheet hp,
    by with_unfolding_all decide, by with_unfolding_all decide,
    by with_unfolding_all decide⟩

/-- **C9, witness** for the amended theorem: the substitution conjunct
applied to the `AND(0, B2)` expression text over the plain sheet with
`B2 = 7`. -/
theorem claim_C9_logical_deps_witness :
    ∃ out st', replaceGo (evaluate 2 sheetB2seven) sheetB2seven 11
        "AND(0, B2)".data initPState = some (out, st') ∧
      st'.cellsUsed =
        (cellRefTokens 11 "AND(0, B2)".data).foldl setAdd initPState.cellsUsed :=
  claim_C9_logical_deps.1 (evaluate 2 sheetB2seven) sheetB2seven
    (fun c s h => by
      by_cases hc : c = "B2"
      · rw [show sheetB2seven c = .str "7" by rw [hc]; decide] at h
        cases h
        decide
      · rw [show sheetB2seven c = .str "" by simp [sheetB2seven, hc]] at h
        cases h
        decide)
    11 "AND(0, B2)".data initPState (by decide)

/-- **C10, amended** (corrected).  For `=IF(cond, X, Y)` with a bare-reference
taken branch not occurring in the condition, evaluation returns that cell's
value, but the dependency set is not "only the condition's references":
`evaluate` substitutes every cell reference of the whole formula — branch
references included — before dispatching to `evaluateIf`.  When the referenced
cells hold plain (non-formula) values, the final dependency set therefore
contains every reference of the formula (first conjunct, general over
plain-valued sheets; concretely `=IF(1,B2,3)` with `B2 = 7` returns `7` with
dependency set `["B2"]`, and `B2` is the one token of the `IF` expression).
When the taken-branch cell itself holds a formula, the nested evaluation
resets the set: `=IF(1,B2,3)` with `B2` holding `=C1` returns `1` with
dependency set `["C1"]` — the branch id `B2` is absent, but the set holds the
nested formula's read, not the condition's references.  Only when
`evaluateIf` is applied directly to an unsubstituted expression does it return
the branch cell's value via a bare `getCellValue` call without recording the
dependency (last conjunct: the final state's `cellsUsed` is empty while
`valueReads` shows the read). -/
theorem claim_C10_branch_value :
    (∀ (evalCb : String → PState → Option (JSVal × PState)) (sheet : Sheet),
      (∀ c, plainVal (sheet c)) →
      ∀ (fuel : ℕ) (l : List Char) (st : PState), l.length < fuel →
        ∃ out st', replaceGo evalCb sheet fuel l st = some (out, st') ∧
          st'.cellsUsed = (cellRefTokens fuel l).foldl setAdd st.cellsUsed) ∧
    ((evaluate 3 sheetB2seven "=IF(1,B2,3)" initPState).map
        (fun p => (p.1, getCellsUsed p.2)) = some (.num (.fin 7), ["B2"])) ∧
    (cellRefTokens 11 "IF(1,B2,3)".data = ["B2"]) ∧
    ((evaluate 4 sheetB2formula "=IF(1,B2,3)" initPState).map
        (fun p => (p.1, getCellsUsed p.2)) = some (.num (.fin 1), ["C1"])) ∧
    ("B2" ∉ (["C1"] : List String)) ∧
    (evaluateIfW (replaceCellReferencesW (evaluate 3 sheetB2seven) sheetB2seven)
        sheetB2seven "IF(1,B2,3)" initPState =
      some (.str "7",
        { initPState with substRuns := 1, valueReads := 1 })) := by
  exact ⟨fun cb sheet hp => replaceGo_plain_records cb sheet hp,
    by with_unfolding_all decide, by with_unfolding_all decide,
    by with_unfolding_all decide, by decide, by with_unfolding_all decide⟩

/-- **C10, witness** for the amended theorem: the substitution conjunct
applied to the `IF(1,B2,3)` expression text over the plain sheet with
`B2 = 7`. -/
theorem claim_C10_branch_value_witness :
    ∃ out st', replaceGo (evaluate 2 sheetB2seven) sheetB2seven 11
        "IF(1,B2,3)".data initPState = some (out, st') ∧
      st'.cellsUsed =
        (cellRefTokens 11 "IF(1,B2,3)".data).foldl setAdd initPState.cellsUsed :=
  claim_C10_branch_value.1 (evaluate 2 sheetB2seven) sheetB2seven
    (fun c s h => by
      by_cases hc : c = "B2"
      · rw [show sheetB2seven c = .str "7" by rw [hc]; decide] at h
        cases h
        decide
      · rw [show sheetB2seven c = .str "" by simp [sheetB2seven, hc]] at h
        cases h
        decide)
    11 "IF(1,B2,3)".data initPState (by decide)


/-- The numeric value component of `getNumericCellValue` is the pure
`averageCellValue` of the sheet (the state component only logs the read). -/
theorem getNumericCellValue_fst (sheet : Sheet) (c : String) (st : PState) :
    (getNumericCellValue sheet c st).1 = averageCellValue sheet c := by
  unfold getNumericCellValue averageCellValue readCell
  dsimp only
  cases h : jsParseFloatVal (sheet c) <;> simp [h]

/-- The cell loop of `evaluateAverage` accumulates exactly the qualifying
cells: the sum folds their numeric values onto the accumulator and the divisor
count grows by the number of qualifying cells. -/
theorem evaluateAverageCells_spec (sheet : Sheet) :
    ∀ (cells : List String) (st : PState) (sum : JSNum) (count : ℕ),
      (evaluateAverageCells sheet cells st sum count).2 =
        ((averageQualifyingCells sheet cells).foldl
            (fun s c => s.add (averageCellValue sheet c)) sum,
          count + (averageQualifyingCells sheet cells).length) := by
  intro cells
  induction cells with
  | nil => intro st sum count; simp [evaluateAverageCells, averageQualifyingCells]
  | cons c rest ih =>
    intro st sum count
    simp only [evaluateAverageCells, readCell]
    rw [getNumericCellValue_fst]
    by_cases h0 : averageCellValue sheet c = .fin 0
    · rw [if_neg (by simp [h0])]
      by_cases hraw : sheet c = .str ""
      · rw [if_neg (by simp [hraw])]
        rw [ih]
        have hq : averageQualifies sheet c = false := by
          simp [averageQualifies, h0, hraw]
        simp only [averageQualifyingCells, List.filter_cons, hq,
          Bool.false_eq_true, if_false]
      · rw [if_pos (by simpa using hraw)]
        rw [ih]
        have hq : averageQualifies sheet c = true := by
          simp [averageQualifies, hraw]
        simp only [averageQualifyingCells, List.filter_cons, hq, if_true,
          List.foldl_cons, List.length_cons]
        rw [Prod.mk.injEq]
        exact ⟨rfl, by omega⟩
    · rw [if_pos (by simpa using h0)]
      rw [ih]
      have hq : averageQualifies sheet c = true := by
        simp [averageQualifies, h0]
      simp only [averageQualifyingCells, List.filter_cons, hq, if_true,
        List.foldl_cons, List.length_cons]
      rw [Prod.mk.injEq]
      exact ⟨rfl, by omega⟩

/-- The argument loop of `evaluateAverage`, on arguments that are all ranges
or well-formed cell references, accumulates exactly the qualifying cells of the
expanded argument list. -/
theorem evaluateAverageArgs_spec (sheet : Sheet) :
    ∀ (args : List String),
      (∀ a ∈ args, a.data.contains ':' = true ∨ isValidCellReference a = true) →
      ∀ (st : PState) (sum : JSNum) (count : ℕ),
      (evaluateAverageArgs sheet args st sum count).2 =
        ((averageQualifyingCells sheet (expandAverageArgs args)).foldl
            (fun s c => s.add (averageCellValue sheet c)) sum,
          count + (averageQualifyingCells sheet (expandAverageArgs args)).length) := by
  intro args
  induction args with
  | nil =>
    intro _ st sum count
    simp [evaluateAverageArgs, expandAverageArgs, averageQualifyingCells]
  | cons a rest ih =>
    intro hH st sum count
    have ha := hH a (List.mem_cons_self _ _)
    have hrest := fun x hx => hH x (List.mem_cons_of_mem _ hx)
    simp only [evaluateAverageArgs, expandAverageArgs, List.flatMap_cons]
    by_cases hc : a.data.contains ':' = true
    · rw [if_pos hc, if_pos hc]
      have h1 := congrArg Prod.fst (evaluateAverageCells_spec sheet (parseCellRange a) st sum count)
      have h2 := congrArg Prod.snd (evaluateAverageCells_spec sheet (parseCellRange a) st sum count)
      simp only at h1 h2
      rw [ih hrest, h1, h2]
      simp only [expandAverageArgs]
      rw [Prod.mk.injEq]
      constructor
      · rw [averageQualifyingCells, averageQualifyingCells, averageQualifyingCells,
          List.filter_append, List.foldl_append]
      · rw [averageQualifyingCells, averageQualifyingCells, averageQualifyingCells,
          List.filter_append, List.length_append]
        omega
    · have hv : isValidCellReference a = true := by
        rcases ha with h | h
        · exact absurd h hc
        · exact h
      rw [if_neg hc, if_pos hv, if_neg hc]
      have h1 := congrArg Prod.fst (evaluateAverageCells_spec sheet [a] st sum count)
      have h2 := congrArg Prod.snd (evaluateAverageCells_spec sheet [a] st sum count)
      simp only at h1 h2
      rw [ih hrest, h1, h2]
      simp only [expandAverageArgs]
      rw [Prod.mk.injEq]
      constructor
      · rw [averageQualifyingCells, averageQualifyingCells, averageQualifyingCells,
          List.filter_append, List.foldl_append]
      · rw [averageQualifyingCells, averageQualifyingCells, averageQualifyingCells,
          List.filter_append, List.length_append]
        omega

/-- Claim C6 (confirmed).  For every `AVERAGE` call over cell ranges and
references, the result divides the accumulated sum by the number of qualifying
(non-blank-or-nonzero) entries of the expanded ranges, not by total range
size, and when zero entries qualify it returns the `#DIV/0!` marker rather
than failing.  Concretely, on the three-cell range `A1:A3` with `A2` blank the
divisor is `2` (the range has 3 cells, 2 qualify, and the result is
`(1+3)/2 = 2`), and on an all-blank sheet the call returns `#DIV/0!`. -/
theorem claim_C6_average_nonblank :
    (∀ (sheet : Sheet) (expr inner : String) (st : PState),
        extractArgsString "AVERAGE" expr = some inner →
        inner ≠ "" →
        (∀ a ∈ parseArguments inner,
            a.data.contains ':' = true ∨ isValidCellReference a = true) →
        (evaluateAverage sheet expr st).1 =
          if (averageQualifyingCells sheet
                (expandAverageArgs (parseArguments inner))).length = 0 then
            JSVal.str "#DIV/0!"
          else
            JSVal.num ((averageSumOf sheet (averageQualifyingCells sheet
                (expandAverageArgs (parseArguments inner)))).div
              (JSNum.fin ((averageQualifyingCells sheet
                (expandAverageArgs (parseArguments inner))).length : ℚ)))) ∧
    (evaluateAverage sheetAvg "AVERAGE(A1:A3)" initPState).1 = .num (.fin 2) ∧
    (parseCellRange "A1:A3").length = 3 ∧
    (averageQualifyingCells sheetAvg (parseCellRange "A1:A3")).length = 2 ∧
    (evaluateAverage blankSheet "AVERAGE(A1:A3)" initPState).1 = .str "#DIV/0!" := by
  refine ⟨?_, ?_, ?_, ?_, ?_⟩
  · intro sheet expr inner st hex hne hargs
    unfold evaluateAverage
    rw [hex]
    dsimp only
    rw [if_neg hne]
    have h1 := congrArg Prod.fst
      (evaluateAverageArgs_spec sheet (parseArguments inner) hargs st (.fin 0) 0)
    have h2 := congrArg Prod.snd
      (evaluateAverageArgs_spec sheet (parseArguments inner) hargs st (.fin 0) 0)
    simp only at h1 h2
    rw [Nat.zero_add] at h2
    by_cases hz : (averageQualifyingCells sheet
        (expandAverageArgs (parseArguments inner))).length = 0
    · rw [if_pos hz]
      rw [h2, if_pos hz]
    · rw [if_neg hz]
      rw [h2, if_neg hz]
      dsimp only
      rw [h1]
      simp only [averageSumOf]
  · with_unfolding_all decide
  · with_unfolding_all decide
  · with_unfolding_all decide
  · with_unfolding_all decide

/-- Witness for C6: the general conjunct instantiated at the concrete sheet
`sheetAvg` and the call `AVERAGE(A1:A3)`, with every hypothesis discharged by
computation. -/
theorem claim_C6_average_nonblank_witness :
    (evaluateAverage sheetAvg "AVERAGE(A1:A3)" initPState).1 =
      (if (averageQualifyingCells sheetAvg
            (expandAverageArgs (parseArguments "A1:A3"))).length = 0 then
        JSVal.str "#DIV/0!"
      else
        JSVal.num ((averageSumOf sheetAvg (averageQualifyingCells sheetAvg
            (expandAverageArgs (parseArguments "A1:A3")))).div
          (JSNum.fin ((averageQualifyingCells sheetAvg
            (expandAverageArgs (parseArguments "A1:A3"))).length : ℚ)))) :=
  claim_C6_average_nonblank.1 sheetAvg "AVERAGE(A1:A3)" "A1:A3" initPState
    (by with_unfolding_all decide) (by with_unfolding_all decide)
    (by with_unfolding_all decide)

/-- A fold that appends one element per step while the accumulator is shorter
than `m` (the inner loop of `generateLimitedRange`) produces the accumulator
followed by the mapped input truncated to the remaining budget. -/
theorem foldl_capAppend {α β : Type} (m : ℕ) (f : α → β) :
    ∀ (l : List α) (acc : List β),
      l.foldl (fun a2 x => if a2.length < m then a2 ++ [f x] else a2) acc =
        acc ++ (l.map f).take (m - acc.length)
  | [], acc => by simp
  | x :: xs, acc => by
    by_cases h : acc.length < m
    · rw [List.foldl_cons, if_pos h, foldl_capAppend m f xs (acc ++ [f x])]
      have hstep : m - acc.length = (m - (acc ++ [f x]).length) + 1 := by
        simp only [List.length_append, List.length_singleton]
        omega
      rw [List.map_cons, hstep, List.take_succ_cons]
      simp
    · rw [List.foldl_cons, if_neg h, foldl_capAppend m f xs acc]
      have hz : m - acc.length = 0 := by omega
      simp [hz]

/-- Folding budget-limited appends of whole blocks (the outer loop of
`generateLimitedRange`, after the inner loop is rewritten by
`foldl_capAppend`) truncates the concatenation of all blocks to the remaining
budget. -/
theorem foldl_capOuter {α β : Type} (m : ℕ) (g : α → List β) :
    ∀ (rows : List α) (acc : List β),
      rows.foldl (fun a i => a ++ (g i).take (m - a.length)) acc =
        acc ++ (rows.flatMap g).take (m - acc.length)
  | [], acc => by simp
  | r :: rs, acc => by
    rw [List.foldl_cons, foldl_capOuter m g rs (acc ++ (g r).take (m - acc.length))]
    rw [List.append_assoc, List.flatMap_cons, List.take_append_eq_append_take]
    have hidx : m - (acc ++ (g r).take (m - acc.length)).length =
        m - acc.length - (g r).length := by
      simp only [List.length_append, List.length_take]
      omega
    rw [hidx]

/-- `generateLimitedRange` is exactly the `maxCells`-truncation of the full
`generateCellRange` enumeration. -/
theorem generateLimitedRange_eq_take (sc sr ec er m : ℕ) :
    generateLimitedRange sc sr ec er m = (generateCellRange sc sr ec er).take m := by
  simp only [generateLimitedRange, generateCellRange]
  have hx : (List.range (max sr er + 1 - min sr er)).foldl
      (fun acc i => (List.range (max sc ec + 1 - min sc ec)).foldl
        (fun acc2 j => if acc2.length < m then
          acc2 ++ [indexToColumnLetter (min sc ec + j) ++ natReprJS (min sr er + i)]
        else acc2) acc) [] =
    (List.range (max sr er + 1 - min sr er)).foldl
      (fun acc i => acc ++ ((List.range (max sc ec + 1 - min sc ec)).map
        (fun j => indexToColumnLetter (min sc ec + j) ++ natReprJS (min sr er + i))).take
          (m - acc.length)) [] := by
    apply List.foldl_ext
    intro a b hb
    exact foldl_capAppend m _ _ a
  rw [hx, foldl_capOuter m _ (List.range (max sr er + 1 - min sr er)) []]
  simp

/-- Length of a `flatMap` over `List.range` with constant block length. -/
theorem range_flatMap_length {β : Type} (C : ℕ) (g : ℕ → List β)
    (hg : ∀ n, (g n).length = C) :
    ∀ R, ((List.range R).flatMap g).length = R * C := by
  intro R
  induction R with
  | zero => simp
  | succ n ih =>
    rw [List.range_succ, List.flatMap_append, List.length_append, ih]
    simp [hg]
    ring

/-- `generateCellRange` enumerates exactly `rows * cols` cells of the
normalised rectangle. -/
theorem generateCellRange_length (sc sr ec er : ℕ) :
    (generateCellRange sc sr ec er).length =
      (max sr er + 1 - min sr er) * (max sc ec + 1 - min sc ec) := by
  simp only [generateCellRange]
  rw [range_flatMap_length (max sc ec + 1 - min sc ec) _ (fun n => by simp)]

/-- Indexing a `flatMap` over `List.range` with constant block length `C`:
position `i * C + j` falls in block `i` at offset `j`. -/
theorem range_flatMap_get? {β : Type} (C : ℕ) (g : ℕ → List β)
    (hg : ∀ n, (g n).length = C) :
    ∀ (R i j : ℕ), i < R → j < C →
      ((List.range R).flatMap g)[i * C + j]? = (g i)[j]? := by
  intro R
  induction R with
  | zero => intro i j hi _; omega
  | succ n ih =>
    intro i j hi hj
    rw [List.range_succ, List.flatMap_append]
    by_cases h : i < n
    · rw [List.getElem?_append_left, ih i j h hj]
      rw [range_flatMap_length C g hg n]
      calc i * C + j < i * C + C := by omega
        _ ≤ n * C := by
            have : i + 1 ≤ n := h
            calc i * C + C = (i + 1) * C := by ring
              _ ≤ n * C := Nat.mul_le_mul_right C this
    · have hin : i = n := by omega
      subst hin
      rw [List.getElem?_append_right]
      · simp only [List.flatMap_cons, List.flatMap_nil, List.append_nil]
        rw [range_flatMap_length C g hg i]
        congr 1
        omega
      · rw [range_flatMap_length C g hg i]
        omega

/-- Row-major order of `generateCellRange`: entry `i * width + j` is the cell
in column `minCol + j` of row `minRow + i`. -/
theorem generateCellRange_get? (sc sr ec er i j : ℕ)
    (hi : i < max sr er + 1 - min sr er) (hj : j < max sc ec + 1 - min sc ec) :
    (generateCellRange sc sr ec er)[i * (max sc ec + 1 - min sc ec) + j]? =
      some (indexToColumnLetter (min sc ec + j) ++ natReprJS (min sr er + i)) := by
  simp only [generateCellRange]
  rw [range_flatMap_get? (max sc ec + 1 - min sc ec) _ (fun n => by simp) _ i j hi hj]
  rw [List.getElem?_map]
  rw [List.getElem?_range hj]
  rfl

/-- Whenever both endpoints of a `:`-range parse (well-formed references with
positive row numbers), `parseCellRange` equals the 1000-truncation of the full
row-major enumeration: the over-1000 branch by `generateLimitedRange_eq_take`,
the small branch because truncating a list of at most 1000 cells is the
identity. -/
theorem parseCellRange_eq_take (range p0 p1 : String) (sl sd el ed : List Char)
    (hsplit : splitOnCharS ':' range = [p0, p1])
    (hv0 : isValidCellReference (trimS p0) = true)
    (hv1 : isValidCellReference (trimS p1) = true)
    (hg0 : cellRefGroups (trimS p0) = some (sl, sd))
    (hg1 : cellRefGroups (trimS p1) = some (el, ed))
    (hsd : parseNatDigits sd ≠ 0) (hed : parseNatDigits ed ≠ 0) :
    parseCellRange range =
      (generateCellRange (columnLetterToIndex (String.mk sl)) (parseNatDigits sd)
        (columnLetterToIndex (String.mk el)) (parseNatDigits ed)).take 1000 := by
  unfold parseCellRange
  rw [hsplit]
  dsimp only
  rw [if_neg (by rw [hv0, hv1]; decide)]
  rw [hg0, hg1]
  dsimp only
  rw [if_neg (by simp [hsd, hed])]
  by_cases hgt : (max (parseNatDigits ed) (parseNatDigits sd) -
      min (parseNatDigits ed) (parseNatDigits sd) + 1) *
      (max (columnLetterToIndex (String.mk el)) (columnLetterToIndex (String.mk sl)) -
        min (columnLetterToIndex (String.mk el)) (columnLetterToIndex (String.mk sl)) + 1) >
      1000
  · rw [if_pos hgt, generateLimitedRange_eq_take]
  · rw [if_neg hgt]
    refine (List.take_of_length_le ?_).symm
    rw [generateCellRange_length]
    have e1 : max (parseNatDigits sd) (parseNatDigits ed) + 1 -
        min (parseNatDigits sd) (parseNatDigits ed) =
        max (parseNatDigits ed) (parseNatDigits sd) -
          min (parseNatDigits ed) (parseNatDigits sd) + 1 := by omega
    have e2 : max (columnLetterToIndex (String.mk sl)) (columnLetterToIndex (String.mk el)) +
        1 - min (columnLetterToIndex (String.mk sl)) (columnLetterToIndex (String.mk el)) =
        max (columnLetterToIndex (String.mk el)) (columnLetterToIndex (String.mk sl)) -
          min (columnLetterToIndex (String.mk el)) (columnLetterToIndex (String.mk sl)) + 1 := by
      omega
    rw [e1, e2]
    exact Nat.le_of_not_lt hgt

/-- If the computed rectangle size is at most 1000, the full enumeration has
at most 1000 cells. -/
theorem genRange_le_of_size (a b c d : ℕ)
    (h : ¬ (max d b - min d b + 1) * (max c a - min c a + 1) > 1000) :
    (generateCellRange a b c d).length ≤ 1000 := by
  rw [generateCellRange_length]
  have e1 : max b d + 1 - min b d = max d b - min d b + 1 := by omega
  have e2 : max a c + 1 - min a c = max c a - min c a + 1 := by omega
  rw [e1, e2]
  exact Nat.le_of_not_lt h

/-- `parseCellRange` never returns more than 1000 cell ids, in every branch
(malformed input, single reference, small rectangle, capped rectangle). -/
theorem parseCellRange_length_le (range : String) :
    (parseCellRange range).length ≤ 1000 := by
  unfold parseCellRange
  rcases h : splitOnCharS ':' range with _ | ⟨p0, _ | ⟨p1, _ | ⟨p2, tl⟩⟩⟩ <;> dsimp only
  · split <;> simp
  · split <;> simp
  · split
    · simp
    · split
      · split
        · simp
        · split
          · rw [generateLimitedRange_eq_take, List.length_take]
            omega
          · rename_i hgt
            exact genRange_le_of_size _ _ _ _ hgt
      · simp
  · split <;> simp

/-- Claim C7 (confirmed).  Range expansion is capped at 1000 cells and
row-major.  `generateLimitedRange` is exactly the 1000-truncation of the full
`generateCellRange` (first conjunct, for any cap), so `parseCellRange` never
returns more than 1000 ids (second).  The full expansion enumerates the
min/max-normalised rectangle in row-major order: entry `i * width + j` is the
cell at column `minCol + j`, row `minRow + i` (third), and whenever both range
endpoints parse, `parseCellRange` equals the 1000-truncation of that row-major
enumeration — so rectangles of at most 1000 cells expand fully in the same
order (fourth).  Concretely `A1:B2` and the reversed `B2:A1` both expand to
`[A1, B1, A2, B2]`, and `A1:A2000` yields exactly 1000 ids. -/
theorem claim_C7_range_cap :
    (∀ sc sr ec er m, generateLimitedRange sc sr ec er m =
        (generateCellRange sc sr ec er).take m) ∧
    (∀ range, (parseCellRange range).length ≤ 1000) ∧
    (∀ sc sr ec er i j, i < max sr er + 1 - min sr er →
        j < max sc ec + 1 - min sc ec →
        (generateCellRange sc sr ec er)[i * (max sc ec + 1 - min sc ec) + j]? =
          some (indexToColumnLetter (min sc ec + j) ++ natReprJS (min sr er + i))) ∧
    (∀ (range p0 p1 : String) (sl sd el ed : List Char),
        splitOnCharS ':' range = [p0, p1] →
        isValidCellReference (trimS p0) = true →
        isValidCellReference (trimS p1) = true →
        cellRefGroups (trimS p0) = some (sl, sd) →
        cellRefGroups (trimS p1) = some (el, ed) →
        parseNatDigits sd ≠ 0 → parseNatDigits ed ≠ 0 →
        parseCellRange range =
          (generateCellRange (columnLetterToIndex (String.mk sl)) (parseNatDigits sd)
            (columnLetterToIndex (String.mk el)) (parseNatDigits ed)).take 1000) ∧
    parseCellRange "A1:B2" = ["A1", "B1", "A2", "B2"] ∧
    parseCellRange "B2:A1" = ["A1", "B1", "A2", "B2"] ∧
    (parseCellRange "A1:A2000").length = 1000 := by
  refine ⟨fun sc sr ec er m => generateLimitedRange_eq_take sc sr ec er m,
    parseCellRange_length_le,
    fun sc sr ec er i j hi hj => generateCellRange_get? sc sr ec er i j hi hj,
    fun range p0 p1 sl sd el ed h1 h2 h3 h4 h5 h6 h7 =>
      parseCellRange_eq_take range p0 p1 sl sd el ed h1 h2 h3 h4 h5 h6 h7,
    by with_unfolding_all decide,
    by with_unfolding_all decide,
    ?_⟩
  rw [parseCellRange_eq_take "A1:A2000" "A1" "A2000" ['A'] ['1'] ['A'] ['2','0','0','0']
    (by with_unfolding_all decide) (by with_unfolding_all decide)
    (by with_unfolding_all decide) (by with_unfolding_all decide)
    (by with_unfolding_all decide) (by with_unfolding_all decide)
    (by with_unfolding_all decide)]
  rw [List.length_take, generateCellRange_length]
  with_unfolding_all decide

/-- Witness for C7: the dispatch conjunct applied to the concrete range token
`A1:B2`, every hypothesis discharged by computation. -/
theorem claim_C7_range_cap_witness :
    parseCellRange "A1:B2" =
      (generateCellRange (columnLetterToIndex (String.mk ['A'])) (parseNatDigits ['1'])
        (columnLetterToIndex (String.mk ['B'])) (parseNatDigits ['2'])).take 1000 :=
  claim_C7_range_cap.2.2.2.1 "A1:B2" "A1" "B2" ['A'] ['1'] ['B'] ['2']
    (by with_unfolding_all decide) (by with_unfolding_all decide)
    (by with_unfolding_all decide) (by with_unfolding_all decide)
    (by with_unfolding_all decide) (by with_unfolding_all decide)
    (by with_unfolding_all decide)

/-- The `[A-Z]` class in terms of character codes. -/
theorem isUpperAZ_iff (c : Char) : isUpperAZ c = true ↔ 65 ≤ c.toNat ∧ c.toNat ≤ 90 := by
  simp only [isUpperAZ, Bool.and_eq_true, decide_eq_true_eq, Char.le_def]
  rfl

/-- The `[0-9]` class in terms of character codes. -/
theorem isDigit09_iff (c : Char) : isDigit09 c = true ↔ 48 ≤ c.toNat ∧ c.toNat ≤ 57 := by
  simp only [isDigit09, Bool.and_eq_true, decide_eq_true_eq, Char.le_def]
  rfl

/-- The classes `[A-Z]` and `[0-9]` are disjoint. -/
theorem upper_not_digit {c : Char} (h : isUpperAZ c = true) : isDigit09 c = false := by
  rw [isUpperAZ_iff] at h
  rw [← Bool.not_eq_true, isDigit09_iff]
  omega

/-- The classes `[0-9]` and `[A-Z]` are disjoint. -/
theorem digit_not_upper {c : Char} (h : isDigit09 c = true) : isUpperAZ c = false := by
  rw [isDigit09_iff] at h
  rw [← Bool.not_eq_true, isUpperAZ_iff]
  omega

/-- Rebuilding a character from its code is the identity. -/
theorem char_ofNat_toNat (c : Char) : Char.ofNat c.toNat = c := Char.ofNat_toNat c

/-- `takeWhile` over an append stops exactly at the boundary when the first
part satisfies the predicate throughout and the second part opens with a
failure. -/
theorem takeWhile_append_eq (p : Char → Bool) :
    ∀ l1 l2 : List Char, (∀ c ∈ l1, p c = true) →
      (∀ c ∈ l2.head?, p c = false) → (l1 ++ l2).takeWhile p = l1
  | [], l2, _, h2 => by
    cases l2 with
    | nil => rfl
    | cons x xs =>
      simp only [List.nil_append]
      exact List.takeWhile_cons_of_neg (by simp [h2 x rfl])
  | c :: l1, l2, h1, h2 => by
    rw [List.cons_append, List.takeWhile_cons_of_pos (h1 c (List.mem_cons_self c l1)),
      takeWhile_append_eq p l1 l2 (fun x hx => h1 x (List.mem_cons_of_mem c hx)) h2]

/-- Code of the letters produced by the column-label loop. -/
theorem charAZ_toNat {r : ℕ} (h : r < 26) : (Char.ofNat (65 + r)).toNat = 65 + r := by
  interval_cases r <;> decide

/-- Code of the digit characters produced by number formatting. -/
theorem digitChar_toNat {d : ℕ} (h : d < 10) : (digitChar d).toNat = 48 + d := by
  unfold digitChar
  interval_cases d <;> decide

/-- The column-label loop produces uppercase letters. -/
theorem charAZ_upper {r : ℕ} (h : r < 26) : isUpperAZ (Char.ofNat (65 + r)) = true := by
  rw [isUpperAZ_iff, charAZ_toNat h]
  omega

/-- Number formatting produces decimal digits. -/
theorem digitChar_digit {d : ℕ} (h : d < 10) : isDigit09 (digitChar d) = true := by
  rw [isDigit09_iff, digitChar_toNat h]
  omega

/-- Every character of a column label is in `[A-Z]`. -/
theorem colIdAux_chars : ∀ fuel t : ℕ, ∀ c ∈ colIdAux fuel t, isUpperAZ c = true
  | 0, _ => by simp [colIdAux]
  | fuel + 1, 0 => by simp [colIdAux]
  | fuel + 1, t + 1 => by
    intro c hc
    rw [colIdAux] at hc
    rcases List.mem_append.mp hc with h | h
    · exact colIdAux_chars fuel (t / 26) c h
    · rw [List.mem_singleton.mp h]
      exact charAZ_upper (Nat.mod_lt t (by omega))

/-- Every character of a formatted number is in `[0-9]`. -/
theorem natReprAux_chars : ∀ fuel n : ℕ, ∀ c ∈ natReprAux fuel n, isDigit09 c = true
  | 0, _ => by simp [natReprAux]
  | fuel + 1, n => by
    intro c hc
    rw [natReprAux] at hc
    by_cases h : n < 10
    · rw [if_pos h] at hc
      rw [List.mem_singleton.mp hc]
      exact digitChar_digit h
    · rw [if_neg h] at hc
      rcases List.mem_append.mp hc with h' | h'
      · exact natReprAux_chars fuel (n / 10) c h'
      · rw [List.mem_singleton.mp h']
        exact digitChar_digit (Nat.mod_lt n (by omega))

/-- The `getColumnIndex` fold inverts the column-label loop: folding
`acc * 26 + (code - 64)` over `colIdAux fuel t` recovers `t` (bijective
base-26 positional value). -/
theorem colIdAux_foldl : ∀ fuel t : ℕ, t ≤ fuel → ∀ acc : ℤ,
    (colIdAux fuel t).foldl (fun a c => a * 26 + ((c.toNat : ℤ) - 64)) acc =
      acc * 26 ^ (colIdAux fuel t).length + t
  | 0, t, h => by
    intro acc
    interval_cases t
    simp [colIdAux]
  | fuel + 1, 0, _ => by intro acc; simp [colIdAux]
  | fuel + 1, t + 1, h => by
    intro acc
    rw [colIdAux, List.foldl_append, List.length_append,
      colIdAux_foldl fuel (t / 26) (by omega) acc]
    simp only [List.foldl_cons, List.foldl_nil, List.length_cons, List.length_nil]
    rw [charAZ_toNat (Nat.mod_lt t (by omega))]
    push_cast
    rw [pow_succ]
    have key : (t : ℤ) + 1 = 26 * ((t : ℤ) / 26) + (t : ℤ) % 26 + 1 := by
      omega
    rw [key]
    ring

/-- The `parseInt` fold inverts decimal formatting: folding
`10 * acc + digit` over `natReprAux fuel n` recovers `n`. -/
theorem natReprAux_foldl : ∀ fuel n : ℕ, n + 1 ≤ fuel → ∀ acc : ℕ,
    (natReprAux fuel n).foldl (fun a c => 10 * a + digitVal c) acc =
      acc * 10 ^ (natReprAux fuel n).length + n
  | 0, n, h => by omega
  | fuel + 1, n, h => by
    intro acc
    rw [natReprAux]
    by_cases hn : n < 10
    · rw [if_pos hn]
      simp only [List.foldl_cons, List.foldl_nil, List.length_singleton]
      unfold digitVal
      rw [digitChar_toNat hn]
      ring_nf
      omega
    · rw [if_neg hn]
      rw [List.foldl_append, List.length_append,
        natReprAux_foldl fuel (n / 10) (by omega) acc]
      simp only [List.foldl_cons, List.foldl_nil, List.length_cons, List.length_nil]
      unfold digitVal
      rw [digitChar_toNat (Nat.mod_lt n (by omega))]
      rw [pow_succ]
      ring_nf
      omega

/-- A column label of a positive one-based index is nonempty. -/
theorem colIdAux_ne_nil : ∀ fuel t : ℕ, 1 ≤ t → t ≤ fuel → colIdAux fuel t ≠ []
  | 0, _, h1, h2 => by omega
  | _ + 1, 0, h1, _ => by omega
  | fuel + 1, t + 1, _, _ => by rw [colIdAux]; simp

/-- A formatted number is nonempty. -/
theorem natReprAux_ne_nil : ∀ fuel n : ℕ, 1 ≤ fuel → natReprAux fuel n ≠ []
  | 0, _, h => by omega
  | fuel + 1, n, _ => by
    rw [natReprAux]
    by_cases h : n < 10
    · rw [if_pos h]; simp
    · rw [if_neg h]; simp

/-- Round trip one: `getCellIndices (getCellId col row) = (col, row)` for all
zero-based `col, row >= 0`. -/
theorem getCellIndices_getCellId (col row : ℕ) :
    getCellIndices (getCellId (col : ℤ) (row : ℤ)) = some ((col : ℤ), (row : ℤ)) := by
  unfold getCellId getColumnId intReprJS
  have h1 : ((col : ℤ) + 1).toNat = col + 1 := by omega
  rw [h1, if_neg (by omega)]
  have h2 : ((row : ℤ) + 1).toNat = row + 1 := by omega
  rw [h2]
  unfold natReprJS getCellIndices
  have hdata : (String.mk (colIdAux (col + 1) (col + 1)) ++
      String.mk (natReprAux (row + 1 + 1) (row + 1))).data =
      colIdAux (col + 1) (col + 1) ++ natReprAux (row + 1 + 1) (row + 1) := by
    simp
  rw [hdata]
  have hC : ∀ c ∈ colIdAux (col + 1) (col + 1), isUpperAZ c = true :=
    colIdAux_chars (col + 1) (col + 1)
  have hD : ∀ c ∈ natReprAux (row + 1 + 1) (row + 1), isDigit09 c = true :=
    natReprAux_chars (row + 1 + 1) (row + 1)
  have hletters : (colIdAux (col + 1) (col + 1) ++
      natReprAux (row + 1 + 1) (row + 1)).takeWhile isUpperAZ =
      colIdAux (col + 1) (col + 1) := by
    refine takeWhile_append_eq isUpperAZ _ _ hC ?_
    intro c hc
    exact digit_not_upper (hD c (List.mem_of_mem_head? hc))
  have hdigits : trailingDigits (colIdAux (col + 1) (col + 1) ++
      natReprAux (row + 1 + 1) (row + 1)) = natReprAux (row + 1 + 1) (row + 1) := by
    unfold trailingDigits
    rw [List.reverse_append]
    rw [takeWhile_append_eq isDigit09 _ _
      (fun c hc => hD c (List.mem_reverse.mp hc))
      (fun c hc => upper_not_digit (hC c (List.mem_reverse.mp (List.mem_of_mem_head? hc))))]
    exact List.reverse_reverse _
  dsimp only
  rw [hletters, hdigits]
  rw [if_neg (by
    simp only [Bool.or_eq_true, decide_eq_true_eq]
    push_neg
    exact ⟨colIdAux_ne_nil (col + 1) (col + 1) (by omega) le_rfl,
      natReprAux_ne_nil (row + 1 + 1) (row + 1) (by omega)⟩)]
  unfold getColumnIndex parseNatDigits
  rw [colIdAux_foldl (col + 1) (col + 1) le_rfl 0]
  rw [natReprAux_foldl (row + 1 + 1) (row + 1) (by omega) 0]
  simp only [zero_mul, zero_add]
  congr 1
  rw [Prod.mk.injEq]
  constructor
  · push_cast
    ring
  · push_cast
    ring

/-- Over an all-uppercase label the integer fold of `getColumnIndex` computes
the same value as its natural-number counterpart (every step stays
nonnegative). -/
theorem colFold_cast : ∀ (L : List Char), (∀ c ∈ L, isUpperAZ c = true) → ∀ a : ℕ,
    L.foldl (fun x c => x * 26 + ((c.toNat : ℤ) - 64)) (a : ℤ) =
      ((L.foldl (fun x c => x * 26 + (c.toNat - 64)) a : ℕ) : ℤ)
  | [], _, a => by simp
  | c :: l, h, a => by
    have hc := (isUpperAZ_iff c).mp (h c (List.mem_cons_self c l))
    rw [List.foldl_cons, List.foldl_cons]
    have hstep : (a : ℤ) * 26 + ((c.toNat : ℤ) - 64) =
        ((a * 26 + (c.toNat - 64) : ℕ) : ℤ) := by omega
    rw [hstep, colFold_cast l (fun x hx => h x (List.mem_cons_of_mem c hx))]

/-- The column-label loop inverts the `getColumnIndex` fold: formatting the
folded value of an all-uppercase label reproduces the label (surjectivity of
the bijective base-26 representation). -/
theorem colIdAux_inv : ∀ (L : List Char), (∀ c ∈ L, isUpperAZ c = true) →
    ∀ fuel, L.foldl (fun x c => x * 26 + (c.toNat - 64)) 0 ≤ fuel →
      colIdAux fuel (L.foldl (fun x c => x * 26 + (c.toNat - 64)) 0) = L := by
  intro L
  induction L using List.reverseRecOn with
  | nil =>
    intro _ fuel _
    cases fuel <;> rfl
  | append_singleton L' c ih =>
    intro h fuel hfuel
    have hLu : ∀ x ∈ L', isUpperAZ x = true :=
      fun x hx => h x (List.mem_append.mpr (Or.inl hx))
    have hc := (isUpperAZ_iff c).mp (h c (List.mem_append.mpr (Or.inr (List.mem_singleton_self c))))
    rw [List.foldl_append] at hfuel ⊢
    simp only [List.foldl_cons, List.foldl_nil] at hfuel ⊢
    set N' := L'.foldl (fun x c => x * 26 + (c.toNat - 64)) 0 with hN'
    obtain ⟨t, ht⟩ : ∃ t, N' * 26 + (c.toNat - 64) = t + 1 := ⟨N' * 26 + (c.toNat - 64) - 1, by omega⟩
    obtain ⟨f, hf⟩ : ∃ f, fuel = f + 1 := ⟨fuel - 1, by omega⟩
    rw [ht, hf, colIdAux]
    have hdiv : t / 26 = N' := by omega
    have hmod : 65 + t % 26 = c.toNat := by omega
    rw [hdiv, hmod, char_ofNat_toNat]
    rw [ih hLu f (by omega)]

/-- The `parseInt` fold never decreases below its accumulator. -/
theorem decFold_ge : ∀ (t : List Char) (a : ℕ),
    a ≤ t.foldl (fun x c => 10 * x + digitVal c) a
  | [], a => le_rfl
  | c :: l, a => by
    rw [List.foldl_cons]
    calc a ≤ 10 * a + digitVal c := by omega
      _ ≤ _ := decFold_ge l _

/-- Character code 48 is the digit zero. -/
theorem char48_eq : Char.ofNat 48 = '0' := by decide

/-- A digit other than `0` has positive value. -/
theorem digitVal_pos {c : Char} (hd : isDigit09 c = true) (h0 : c ≠ '0') :
    1 ≤ digitVal c := by
  have hb := (isDigit09_iff c).mp hd
  unfold digitVal
  have : c.toNat ≠ 48 := by
    intro he
    exact h0 (by rw [← char_ofNat_toNat c, he, char48_eq])
  omega

/-- A nonempty digit string without a leading zero parses to a positive
number. -/
theorem parseNatDigits_pos (D : List Char) (hD : ∀ c ∈ D, isDigit09 c = true)
    (hne : D ≠ []) (h0 : D.head? ≠ some '0') : 1 ≤ parseNatDigits D := by
  cases D with
  | nil => exact absurd rfl hne
  | cons h t =>
    have hh : h ≠ '0' := by
      intro he
      exact h0 (by rw [he]; rfl)
    have hdv := digitVal_pos (hD h (List.mem_cons_self h t)) hh
    unfold parseNatDigits
    rw [List.foldl_cons]
    calc 1 ≤ digitVal h := hdv
      _ = 10 * 0 + digitVal h := by omega
      _ ≤ _ := decFold_ge t _

/-- Decimal formatting inverts `parseInt` on digit strings without a leading
zero. -/
theorem natReprAux_inv : ∀ (D : List Char), (∀ c ∈ D, isDigit09 c = true) →
    D ≠ [] → D.head? ≠ some '0' →
    ∀ fuel, parseNatDigits D + 1 ≤ fuel → natReprAux fuel (parseNatDigits D) = D := by
  intro D
  induction D using List.reverseRecOn with
  | nil => intro _ hne; exact absurd rfl hne
  | append_singleton D' c ih =>
    intro h _ h0 fuel hfuel
    have hDd : ∀ x ∈ D', isDigit09 x = true :=
      fun x hx => h x (List.mem_append.mpr (Or.inl hx))
    have hc := (isDigit09_iff c).mp (h c (List.mem_append.mpr (Or.inr (List.mem_singleton_self c))))
    have hsplit : parseNatDigits (D' ++ [c]) = 10 * parseNatDigits D' + digitVal c := by
      unfold parseNatDigits
      rw [List.foldl_append]
      simp
    have hdvc : digitVal c ≤ 9 := by unfold digitVal; omega
    have hchar : digitChar (digitVal c) = c := by
      unfold digitChar digitVal
      have : 48 + (c.toNat - 48) = c.toNat := by omega
      rw [this, char_ofNat_toNat]
    by_cases hD' : D' = []
    · subst hD'
      simp only [List.nil_append] at hsplit hfuel ⊢
      have hn : parseNatDigits [c] = digitVal c := by
        unfold parseNatDigits
        simp
      rw [hn] at hfuel ⊢
      obtain ⟨f, hf⟩ : ∃ f, fuel = f + 1 := ⟨fuel - 1, by omega⟩
      rw [hf, natReprAux, if_pos (by omega), hchar]
    · have hhead : D'.head? ≠ some '0' := by
        cases D' with
        | nil => exact absurd rfl hD'
        | cons x xs =>
          simpa using h0
      have hn' := parseNatDigits_pos D' hDd hD' hhead
      rw [hsplit] at hfuel ⊢
      obtain ⟨f, hf⟩ : ∃ f, fuel = f + 1 := ⟨fuel - 1, by omega⟩
      rw [hf, natReprAux, if_neg (by omega)]
      have hdiv : (10 * parseNatDigits D' + digitVal c) / 10 = parseNatDigits D' := by
        omega
      have hmod : (10 * parseNatDigits D' + digitVal c) % 10 = digitVal c := by
        omega
      rw [hdiv, hmod, hchar, ih hDd hD' hhead f (by omega)]

/-- Round trip two: for a canonical id (nonempty uppercase letters, then a
nonempty digit string without a leading zero), `getCellId` applied to
`getCellIndices` reproduces the id. -/
theorem getCellId_getCellIndices (L D : List Char)
    (hL : L ≠ []) (hD : D ≠ [])
    (hLu : ∀ c ∈ L, isUpperAZ c = true) (hDd : ∀ c ∈ D, isDigit09 c = true)
    (h0 : D.head? ≠ some '0') :
    (getCellIndices (String.mk (L ++ D))).map (fun p => getCellId p.1 p.2) =
      some (String.mk (L ++ D)) := by
  unfold getCellIndices
  have hletters : (L ++ D).takeWhile isUpperAZ = L :=
    takeWhile_append_eq _ _ _ hLu
      (fun c hc => digit_not_upper (hDd c (List.mem_of_mem_head? hc)))
  have hdigits : trailingDigits (L ++ D) = D := by
    unfold trailingDigits
    rw [List.reverse_append, takeWhile_append_eq isDigit09 _ _
      (fun c hc => hDd c (List.mem_reverse.mp hc))
      (fun c hc => upper_not_digit (hLu c (List.mem_reverse.mp (List.mem_of_mem_head? hc))))]
    exact List.reverse_reverse _
  dsimp only
  rw [hletters, hdigits]
  rw [if_neg (by
    simp only [Bool.or_eq_true, decide_eq_true_eq]
    push_neg
    exact ⟨hL, hD⟩)]
  rw [Option.map_some']
  unfold getCellId
  have hrow : (parseNatDigits D : ℤ) - 1 + 1 = (parseNatDigits D : ℤ) := by ring
  dsimp only
  rw [hrow]
  unfold getColumnIndex getColumnId
  have hcast := colFold_cast L hLu 0
  rw [Nat.cast_zero] at hcast
  dsimp only
  rw [hcast]
  have htn : (((L.foldl (fun x c => x * 26 + (c.toNat - 64)) 0 : ℕ) : ℤ) - 1 + 1).toNat =
      L.foldl (fun x c => x * 26 + (c.toNat - 64)) 0 := by omega
  rw [htn, colIdAux_inv L hLu _ le_rfl]
  unfold intReprJS
  rw [if_neg (by omega)]
  rw [Int.toNat_natCast]
  unfold natReprJS
  rw [natReprAux_inv D hDd hD h0 _ le_rfl]
  rfl

/-- Claim C8 (confirmed).  For every column index `col >= 0` and row index
`row >= 0`, `getCellIndices (getCellId col row)` returns `(col, row)`; and for
every well-formed canonical cell id — uppercase letters followed by a 1-based
row number (nonempty digits, no leading zero) — `getCellId` applied to the
indices `getCellIndices` extracts returns the id itself. -/
theorem claim_C8_roundtrip :
    (∀ col row : ℕ, getCellIndices (getCellId (col : ℤ) (row : ℤ)) =
        some ((col : ℤ), (row : ℤ))) ∧
    (∀ L D : List Char, L ≠ [] → D ≠ [] →
        (∀ c ∈ L, isUpperAZ c = true) → (∀ c ∈ D, isDigit09 c = true) →
        D.head? ≠ some '0' →
        (getCellIndices (String.mk (L ++ D))).map (fun p => getCellId p.1 p.2) =
          some (String.mk (L ++ D))) :=
  ⟨getCellIndices_getCellId,
    fun L D h1 h2 h3 h4 h5 => getCellId_getCellIndices L D h1 h2 h3 h4 h5⟩

/-- Witness for C8: the canonical-id direction applied to the concrete id
`B12`, every hypothesis discharged by computation. -/
theorem claim_C8_roundtrip_witness :
    (getCellIndices (String.mk (['B'] ++ ['1', '2']))).map (fun p => getCellId p.1 p.2) =
      some (String.mk (['B'] ++ ['1', '2'])) :=
  claim_C8_roundtrip.2 ['B'] ['1', '2'] (by decide) (by decide) (by decide)
    (by decide) (by decide)

end SpreadsheetApp
